import Mathlib

/-!
# Sapling consolidation operation (src/wallet/asyncrpcoperation_saplingconsolidation.cpp)

A shallow embedding of `AsyncRPCOperation_saplingconsolidation`: the entry point `main`,
the worker `main_impl`, `setConsolidationResult`, `cancel`, the amount selector
`chooseAmount` and the destination resolver `getConsolidationDestAddress`.

Conventions of the embedding.

* The operation object (the fields of the base class that the code assigns, and
  `targetHeight_`) is passed explicitly.  Every function also returns `calls`: the calls it
  made, in program order, to the collaborators (wallet, consensus provider, builder, pending
  transaction sink) and to the base class setters, and its reads of the cancellation flag
  at the checkpoint of line 154.
* What the collaborators answer is given by an environment `Env` of functions.
* `CAmount` (int64) and `int` arithmetic is carried out in `Int`; signed overflow is
  undefined in the source and does not occur for amounts within the money range and block
  heights.  The conversion `CAmount(uint64_t)` is modelled modulo `2^64`.
* `chooseAmount` takes the results of `GetRand` as a list of draws and carries out its `int`,
  `uint64_t` and `CAmount` conversions modulo the word size.
* `getConsolidationDestAddress` takes the wallet's key store as a state and the key
  derivation and wallet calls as functions of a second environment, `DestEnv`.
* `LogPrint`/`LogPrintf`/`strprintf` lines only format text and are left out.
-/

namespace SaplingConsolidation

/-! ## Constants (lines 15-16) -/

/-- The constant `const CAmount FEE = 10000;`. -/
def FEE : Int := 10000

/-- The constant `const int MIGRATION_EXPIRY_DELTA = 450;`. -/
def MIGRATION_EXPIRY_DELTA : Int := 450

/-! ## Data model -/

/-- The enumeration `OperationStatus` of the base class. -/
inductive OperationStatus where
  | READY
  | EXECUTING
  | CANCELLED
  | FAILED
  | SUCCESS
  deriving DecidableEq, Repr

/-- A shielded payment address (`libzcash::SaplingPaymentAddress`), by identifier. -/
abbrev SaplingPaymentAddress := Nat

/-- An incoming viewing key (`libzcash::SaplingIncomingViewingKey`, a `uint256`); a
default-constructed key is `0`. -/
abbrev SaplingIncomingViewingKey := Nat

/-- A note locator (`SaplingOutPoint`). -/
abbrev SaplingOutPoint := Nat

/-- An inclusion proof (`SaplingWitness`). -/
abbrev SaplingWitness := Nat

/-- A merkle root (`uint256 anchor`). -/
abbrev Anchor := Nat

/-- A note (`libzcash::SaplingNote`): `value()` is a `uint64_t`; `r` tells apart notes of the
same value. -/
structure SaplingNote where
  value : Nat
  r : Nat
  deriving DecidableEq, Repr

/-- An entry of the wallet's note enumeration (`SaplingNoteEntry`). -/
structure SaplingNoteEntry where
  op : SaplingOutPoint
  address : SaplingPaymentAddress
  note : SaplingNote
  deriving DecidableEq, Repr

/-- The part `expsk` of a spending key (`libzcash::SaplingExpandedSpendingKey`). -/
structure SaplingExpandedSpendingKey where
  ask : Nat
  nsk : Nat
  ovk : Nat
  deriving DecidableEq, Repr

/-- A spending key (`libzcash::SaplingExtendedSpendingKey`). -/
structure SaplingExtendedSpendingKey where
  expsk : SaplingExpandedSpendingKey
  deriving DecidableEq, Repr

/-- The conversion `CAmount(v)` of a `uint64_t` to `int64_t`. -/
def toCAmount (v : Nat) : Int :=
  if v % 2 ^ 64 < 2 ^ 63 then ((v % 2 ^ 64 : Nat) : Int) else ((v % 2 ^ 64 : Nat) : Int) - 2 ^ 64

/-- One argument list of `builder.AddSaplingSpend(expsk, note, anchor, witness)`. -/
structure SpendDescriptionInfo where
  expsk : SaplingExpandedSpendingKey
  note : SaplingNote
  anchor : Anchor
  witness : SaplingWitness
  deriving DecidableEq, Repr

/-- One argument list of `builder.AddSaplingOutput(ovk, to, value)`, with `addr` for `to`. -/
structure OutputDescriptionInfo where
  ovk : Nat
  addr : SaplingPaymentAddress
  value : Int
  deriving DecidableEq, Repr

/-- The calls made on one `TransactionBuilder`: the height it was constructed with, the last
`SetExpiryHeight` and `SetFee` arguments (`none` when never called), and the spends and outputs
added, in order. -/
structure TransactionBuilder where
  nHeight : Int
  expiryHeight : Option Int
  fee : Option Int
  spends : List SpendDescriptionInfo
  outputs : List OutputDescriptionInfo
  deriving DecidableEq, Repr

/-- The constructor call `TransactionBuilder(consensusParams, targetHeight_, ...)` (line 121). -/
def TransactionBuilder.new (nHeight : Int) : TransactionBuilder :=
  { nHeight := nHeight, expiryHeight := none, fee := none, spends := [], outputs := [] }

/-- The call `builder.SetExpiryHeight(h)`. -/
def TransactionBuilder.SetExpiryHeight (b : TransactionBuilder) (h : Int) : TransactionBuilder :=
  { b with expiryHeight := some h }

/-- The call `builder.SetFee(f)`. -/
def TransactionBuilder.SetFee (b : TransactionBuilder) (f : Int) : TransactionBuilder :=
  { b with fee := some f }

/-- The call `builder.AddSaplingSpend(expsk, note, anchor, witness)`. -/
def TransactionBuilder.AddSaplingSpend (b : TransactionBuilder)
    (expsk : SaplingExpandedSpendingKey) (note : SaplingNote) (anchor : Anchor)
    (witness : SaplingWitness) : TransactionBuilder :=
  { b with spends := b.spends ++ [⟨expsk, note, anchor, witness⟩] }

/-- The call `builder.AddSaplingOutput(ovk, to, value)`. -/
def TransactionBuilder.AddSaplingOutput (b : TransactionBuilder) (ovk : Nat)
    (addr : SaplingPaymentAddress) (value : Int) : TransactionBuilder :=
  { b with outputs := b.outputs ++ [⟨ovk, addr, value⟩] }

/-- A built transaction (`CTransaction`): the builder it was built from and
`tx.GetHash().ToString()`. -/
structure CTransaction where
  builder : TransactionBuilder
  hash : String
  deriving DecidableEq, Repr

/-- What `main_impl` can raise, by the handler of `main` that receives it: a `UniValue`
object (with its `code` member when that is an integer and its `message` member when that is
a string), an exception derived from `runtime_error`, one derived from `logic_error`, another
`std::exception`, or anything else. -/
inductive Raised where
  | objError (code : Option Int) (message : Option String)
  | runtime_error (what : String)
  | logic_error (what : String)
  | exception (what : String)
  | other
  deriving DecidableEq, Repr

/-- The object `res` that `setConsolidationResult` hands to `set_result`;
`amount_consolidated` holds the amount given to `FormatMoney`. -/
structure ConsolidationResult where
  num_tx_created : Int
  amount_consolidated : Int
  consolidation_txids : List String
  deriving DecidableEq, Repr

/-- A call made during a run. -/
inductive Event where
  | set_state (s : OperationStatus)
  | start_execution_clock
  | stop_execution_clock
  | set_error_code (code : Int)
  | set_error_message (message : String)
  | set_result (res : ConsolidationResult)
  | NextActivationHeight (height : Int)
  | GetFilteredNotes
  | GetSaplingPaymentAddresses
  | GetSaplingExtendedSpendingKey (addr : SaplingPaymentAddress)
  | GetSaplingIncomingViewingKey (addr : SaplingPaymentAddress)
  | GetSaplingNoteWitnesses (ops : List SaplingOutPoint)
  | NewTransactionBuilder (nHeight : Int)
  | Build (builder : TransactionBuilder)
  | checkpoint (cancelled : Bool)
  | AddPendingSaplingConsolidationTx (tx : CTransaction)
  deriving DecidableEq, Repr

/-- Reads of the wallet: notes, addresses, keys and witnesses. -/
def Event.isWalletRead : Event → Bool
  | .GetFilteredNotes => true
  | .GetSaplingPaymentAddresses => true
  | .GetSaplingExtendedSpendingKey _ => true
  | .GetSaplingIncomingViewingKey _ => true
  | .GetSaplingNoteWitnesses _ => true
  | _ => false

/-- Calls on a transaction builder: its construction and `Build` (which carries every call
made on the builder in between). -/
def Event.isBuilderCall : Event → Bool
  | .NewTransactionBuilder _ => true
  | .Build _ => true
  | _ => false

/-- Submissions to the pending-transaction sink. -/
def Event.isSubmission : Event → Bool
  | .AddPendingSaplingConsolidationTx _ => true
  | _ => false

/-- The transactions handed to the pending-transaction sink, in order. -/
def submitted : List Event → List CTransaction
  | [] => []
  | .AddPendingSaplingConsolidationTx tx :: rest => tx :: submitted rest
  | _ :: rest => submitted rest

/-- The operation object: the base class fields written by this file, and `targetHeight_`. -/
structure Operation where
  state : OperationStatus
  error_code : Int
  error_message : String
  result : Option ConsolidationResult
  targetHeight_ : Int
  deriving DecidableEq, Repr

/-- Modelled from the spec: the base class constructor is not in `src/`; a fresh operation
(line 18) is `READY`, with no error and no result. -/
def Operation.new (targetHeight : Int) : Operation :=
  { state := .READY, error_code := 0, error_message := "", result := none,
    targetHeight_ := targetHeight }

/-- Modelled from the spec: the base class `AsyncRPCOperation` is not in `src/`; `set_state`
is assignment of the state field. -/
def Operation.set_state (o : Operation) (s : OperationStatus) : Operation :=
  { o with state := s }

/-- Modelled from the spec: the base class `AsyncRPCOperation` is not in `src/`;
`isCancelled` reads the state field. -/
def Operation.isCancelled (o : Operation) : Bool :=
  decide (o.state = .CANCELLED)

/-- Modelled from the spec: the base class setter `set_error_code`. -/
def Operation.set_error_code (o : Operation) (c : Int) : Operation :=
  { o with error_code := c }

/-- Modelled from the spec: the base class setter `set_error_message`. -/
def Operation.set_error_message (o : Operation) (m : String) : Operation :=
  { o with error_message := m }

/-- Modelled from the spec: the base class setter `set_result`. -/
def Operation.set_result (o : Operation) (r : ConsolidationResult) : Operation :=
  { o with result := some r }

/-- The method `cancel` (lines 237-239). -/
def Operation.cancel (o : Operation) : Operation :=
  o.set_state .CANCELLED

/-- The object built by `setConsolidationResult` (lines 174-181). -/
def consolidationResult (numTxCreated : Int) (amountConsolidated : Int)
    (consolidationTxIds : List String) : ConsolidationResult :=
  { num_tx_created := numTxCreated, amount_consolidated := amountConsolidated,
    consolidation_txids := consolidationTxIds }

/-- The method `setConsolidationResult` (lines 173-183). -/
def Operation.setConsolidationResult (o : Operation) (numTxCreated : Int)
    (amountConsolidated : Int) (consolidationTxIds : List String) : Operation :=
  o.set_result (consolidationResult numTxCreated amountConsolidated consolidationTxIds)

/-- The answers of the collaborators during one run.  `k` is the position of the address being
processed in the loop of line 97.

* `NextActivationHeight h`: the consensus provider's next activation height, if any.
* `saplingEntries`, `addresses`: what `GetFilteredNotes(.., "", 11)` and
  `GetSaplingPaymentAddresses` return, in enumeration order.
* `GetSaplingExtendedSpendingKey addr`: the spending key, `none` when the call returns false.
* `GetSaplingIncomingViewingKey addr`: the key, `none` when the call returns false (the
  caller's default-constructed `ivk` is then left as it is).
* `in_viewing_key expsk`: `expsk.full_viewing_key().in_viewing_key()`.
* `GetSaplingNoteWitnesses k ops`: the witnesses and the anchor.
* `Build k builder`: `builder.Build().GetTxOrThrow()`: the hash of the transaction, or what
  is raised.
* `cancelDuring k`: whether another thread calls `cancel()` while address `k` is processed,
  before its checkpoint (line 154). -/
structure Env where
  NextActivationHeight : Int → Option Int
  saplingEntries : List SaplingNoteEntry
  addresses : List SaplingPaymentAddress
  GetSaplingExtendedSpendingKey : SaplingPaymentAddress → Option SaplingExtendedSpendingKey
  GetSaplingIncomingViewingKey : SaplingPaymentAddress → Option SaplingIncomingViewingKey
  in_viewing_key : SaplingExpandedSpendingKey → SaplingIncomingViewingKey
  GetSaplingNoteWitnesses : Nat → List SaplingOutPoint → List (Option SaplingWitness) × Anchor
  Build : Nat → TransactionBuilder → Except Raised String
  cancelDuring : Nat → Bool

/-! ## `main_impl` (lines 70-171) -/

/-- Lines 105-106: `ivk` is default-constructed and then filled in by the wallet when it knows
the address. -/
def noteIvk (env : Env) (e : SaplingNoteEntry) : SaplingIncomingViewingKey :=
  (env.GetSaplingIncomingViewingKey e.address).getD 0

/-- The test of line 109. -/
def ivkMatches (env : Env) (extsk : SaplingExtendedSpendingKey) (e : SaplingNoteEntry) : Bool :=
  decide (noteIvk env e = env.in_viewing_key extsk.expsk)

/-- The locals of the note selection loop. -/
structure Selection where
  fromNotes : List SaplingNoteEntry
  amountToSend : Int
  deriving DecidableEq, Repr

/-- Lines 109-112: the effect of one entry on `fromNotes` and `amountToSend`. -/
def selectStep (env : Env) (extsk : SaplingExtendedSpendingKey) (sel : Selection)
    (saplingEntry : SaplingNoteEntry) : Selection :=
  if ivkMatches env extsk saplingEntry then
    { fromNotes := sel.fromNotes ++ [saplingEntry],
      amountToSend := toCAmount saplingEntry.note.value }
  else sel

/-- The loop of lines 103-118 over the remaining `saplingEntries`, from the current values of
`fromNotes` and `amountToSend`; every visited entry costs one wallet lookup. -/
def selectNotes (env : Env) (extsk : SaplingExtendedSpendingKey) :
    List SaplingNoteEntry → Selection → Selection × List Event
  | [], sel => (sel, [])
  | saplingEntry :: rest, sel =>
    let sel := selectStep env extsk sel saplingEntry
    if sel.fromNotes.length ≥ 25 then
      (sel, [.GetSaplingIncomingViewingKey saplingEntry.address])
    else
      let r := selectNotes env extsk rest sel
      (r.1, .GetSaplingIncomingViewingKey saplingEntry.address :: r.2)

/-- The loop of lines 142-148: `i` is the index of the head of the remaining `notes`;
`witnesses[i]` past the end of the vector (undefined in the source) counts as absent. -/
def addSaplingSpends (expsk : SaplingExpandedSpendingKey) (anchor : Anchor)
    (witnesses : List (Option SaplingWitness)) :
    List SaplingNote → Nat → TransactionBuilder → TransactionBuilder
  | [], _, builder => builder
  | note :: rest, i, builder =>
    match witnesses.getD i none with
    | none => builder
    | some w =>
      addSaplingSpends expsk anchor witnesses rest (i + 1)
        (builder.AddSaplingSpend expsk note anchor w)

/-- The locals of `main_impl` that live across the address loop (lines 92-94). -/
structure Totals where
  numTxCreated : Int
  consolidationTxIds : List String
  amountConsolidated : Int
  deriving DecidableEq, Repr

/-- What lines 101-151 leave behind for one address: the selection, the builder as it stands
when `Build` is called, and the calls made. -/
structure Assembly where
  sel : Selection
  builder : TransactionBuilder
  calls : List Event
  deriving DecidableEq, Repr

/-- Lines 101-151 for address `addr` (number `k`) with spending key `extsk`: selection,
builder set-up, witness fetch, spends, fee and output. -/
def assemble (env : Env) (targetHeight : Int) (k : Nat) (addr : SaplingPaymentAddress)
    (extsk : SaplingExtendedSpendingKey) : Assembly :=
  let s := selectNotes env extsk env.saplingEntries ⟨[], 0⟩
  let fromNotes := s.1.fromNotes
  let amountToSend := s.1.amountToSend
  let builder := TransactionBuilder.new targetHeight
  let builder := builder.SetExpiryHeight (targetHeight + MIGRATION_EXPIRY_DELTA)
  let ops := fromNotes.map (·.op)
  let notes := fromNotes.map (·.note)
  let w := env.GetSaplingNoteWitnesses k ops
  let builder := addSaplingSpends extsk.expsk w.2 w.1 notes 0 builder
  let builder := builder.SetFee FEE
  let builder := builder.AddSaplingOutput extsk.expsk.ovk addr (amountToSend - FEE)
  { sel := s.1, builder := builder,
    calls := s.2 ++ [.NewTransactionBuilder targetHeight, .GetSaplingNoteWitnesses ops] }

/-- How the address loop ends: the operation, the totals, what was raised (if anything), and
the calls made. -/
structure LoopOutcome where
  op : Operation
  totals : Totals
  raised : Option Raised
  calls : List Event
  deriving DecidableEq, Repr

/-- The same outcome, after the given earlier calls. -/
def LoopOutcome.after (calls : List Event) (r : LoopOutcome) : LoopOutcome :=
  { r with calls := calls ++ r.calls }

/-- A call of `cancel()` from another thread while address `k` is processed, when the
environment says so: the operation afterwards. -/
def cancelArrives (env : Env) (k : Nat) (o : Operation) : Operation :=
  if env.cancelDuring k then o.cancel else o

/-- The call recorded for `cancelArrives`. -/
def cancelCalls (env : Env) (k : Nat) : List Event :=
  if env.cancelDuring k then [.set_state .CANCELLED] else []

/-- The calls of one address with a key up to and including `Build` (lines 99-152). -/
def groupCalls (env : Env) (k : Nat) (addr : SaplingPaymentAddress) (a : Assembly) :
    List Event :=
  cancelCalls env k ++ [.GetSaplingExtendedSpendingKey addr] ++ a.calls ++ [.Build a.builder]

/-- The loop of lines 97-165 over the remaining addresses; `k` is the position of the head,
`o` the operation and `t` the totals on entry. -/
def addressLoop (env : Env) :
    List SaplingPaymentAddress → Nat → Operation → Totals → LoopOutcome
  | [], _, o, t => { op := o, totals := t, raised := none, calls := [] }
  | addr :: rest, k, o, t =>
    let o := cancelArrives env k o
    match env.GetSaplingExtendedSpendingKey addr with
    | none =>
      (addressLoop env rest (k + 1) o t).after
        (cancelCalls env k ++ [.GetSaplingExtendedSpendingKey addr])
    | some extsk =>
      let a := assemble env o.targetHeight_ k addr extsk
      let amountToSend := a.sel.amountToSend
      let t := { t with amountConsolidated := t.amountConsolidated + amountToSend }
      let calls := groupCalls env k addr a
      match env.Build k a.builder with
      | .error e => { op := o, totals := t, raised := some e, calls := calls }
      | .ok hash =>
        let tx : CTransaction := ⟨a.builder, hash⟩
        if o.isCancelled then
          { op := o, totals := t, raised := none, calls := calls ++ [.checkpoint true] }
        else
          let t := { t with
            amountConsolidated := t.amountConsolidated + (amountToSend - FEE),
            consolidationTxIds := t.consolidationTxIds ++ [tx.hash] }
          (addressLoop env rest (k + 1) o t).after
            (calls ++ [.checkpoint false, .AddPendingSaplingConsolidationTx tx])

/-- How `main_impl` ends: the operation, either the returned `bool` or what was raised, and
the calls made. -/
structure ImplOutcome where
  op : Operation
  ret : Except Raised Bool
  calls : List Event

/-- The method `main_impl` (lines 70-171). -/
def main_impl (env : Env) (o : Operation) : ImplOutcome :=
  let nextActivationHeight := env.NextActivationHeight o.targetHeight_
  if nextActivationHeight.isSome ∧
      o.targetHeight_ + MIGRATION_EXPIRY_DELTA ≥ nextActivationHeight.getD 0 then
    { op := o.setConsolidationResult 0 0 [], ret := .ok true,
      calls := [.NextActivationHeight o.targetHeight_,
        .set_result (consolidationResult 0 0 [])] }
  else
    let r := addressLoop env env.addresses 0 o ⟨0, [], 0⟩
    let calls := [.NextActivationHeight o.targetHeight_, .GetFilteredNotes,
      .GetSaplingPaymentAddresses] ++ r.calls
    match r.raised with
    | some e => { op := r.op, ret := .error e, calls := calls }
    | none =>
      let t := r.totals
      { op := r.op.setConsolidationResult t.numTxCreated t.amountConsolidated
          t.consolidationTxIds,
        ret := .ok true,
        calls := calls ++ [.set_result
          (consolidationResult t.numTxCreated t.amountConsolidated t.consolidationTxIds)] }

/-! ## `main` (lines 22-68) -/

/-- How `main` ends: the operation, the calls made, and the exception that left `main`, if
any. -/
structure MainOutcome where
  op : Operation
  calls : List Event
  escaped : Option Raised

/-- The handlers of lines 33-50: the error code and message they set.  A `UniValue` object
without an integer `code` or a string `message` makes `get_int`/`get_str` raise inside the
handler, before anything is set. -/
def handle : Raised → Except Raised (Int × String)
  | .objError (some code) (some message) => .ok (code, message)
  | .objError none _ => .error (.runtime_error "JSON value is not an integer as expected")
  | .objError (some _) none => .error (.runtime_error "JSON value is not a string as expected")
  | .runtime_error what => .ok (-1, "runtime error: " ++ what)
  | .logic_error what => .ok (-1, "logic error: " ++ what)
  | .exception what => .ok (-1, "general exception: " ++ what)
  | .other => .ok (-2, "unknown error")

/-- Lines 52-58: stop the clock and set the final state. -/
def finish (o : Operation) (success : Bool) (calls : List Event) : MainOutcome :=
  if success then
    { op := o.set_state .SUCCESS,
      calls := calls ++ [.stop_execution_clock, .set_state .SUCCESS], escaped := none }
  else
    { op := o.set_state .FAILED,
      calls := calls ++ [.stop_execution_clock, .set_state .FAILED], escaped := none }

/-- The method `main` (lines 22-68). -/
def main (env : Env) (o : Operation) : MainOutcome :=
  if o.isCancelled then { op := o, calls := [], escaped := none }
  else
    let o := o.set_state .EXECUTING
    let r := main_impl env o
    let calls := [.set_state .EXECUTING, .start_execution_clock] ++ r.calls
    match r.ret with
    | .ok success => finish r.op success calls
    | .error e =>
      match handle e with
      | .error e' => { op := r.op, calls := calls, escaped := some e' }
      | .ok (code, message) =>
        finish ((r.op.set_error_code code).set_error_message message) false
          (calls ++ [.set_error_code code, .set_error_message message])

/-! ## `chooseAmount` (lines 185-198) -/

/-- The conversion of a value to `int` (32 bits, two's complement). -/
def toInt32 (v : Nat) : Int :=
  if v % 2 ^ 32 < 2 ^ 31 then ((v % 2 ^ 32 : Nat) : Int) else ((v % 2 ^ 32 : Nat) : Int) - 2 ^ 32

/-- The conversion of an `int` to `uint64_t`. -/
def toUInt64 (i : Int) : Nat :=
  (i % 2 ^ 64).toNat

/-- Lines 189-194 for one round of the loop, where `r3` is what `GetRand(3)` returned and
`r99` what `GetRand(99)` returned: the `int` exponent (from a `uint64_t` sum), the `uint64_t`
mantissa, the power converted to `int`, and the `uint64_t` product converted to `CAmount`.
`std::pow(10, exponent)` is taken as the exact power of ten, which a `double` holds exactly
for the exponents that occur. -/
def drawAmount (r3 r99 : Nat) : Int :=
  let exponent : Int := toInt32 ((r3 + 6) % 2 ^ 64)
  let mantissa : Nat := (r99 + 1) % 2 ^ 64
  let pow : Int := toInt32 (10 ^ exponent.toNat)
  toCAmount ((mantissa * toUInt64 pow) % 2 ^ 64)

/-- The method `chooseAmount` (lines 185-198) on the successive pairs of draws
(`GetRand(3)`, `GetRand(99)`): the amount returned, or `none` when the draws run out before
the loop ends. -/
def chooseAmount (availableFunds : Int) : List (Nat × Nat) → Option Int
  | [] => none
  | (r3, r99) :: draws =>
    let amount := drawAmount r3 r99
    if amount > availableFunds then chooseAmount availableFunds draws else some amount

/-! ## `getConsolidationDestAddress` (lines 200-235) -/

/-- A wallet seed (`HDSeed`), by identifier. -/
abbrev HDSeed := Nat

/-- A full viewing key (`libzcash::SaplingFullViewingKey`), by identifier. -/
abbrev SaplingFullViewingKey := Nat

/-- The collaborators of `getConsolidationDestAddress`, for a wallet whose key store has
states of type `W`.

* `consolidationdestaddress`: the argument `-consolidationdestaddress`, when configured.
* `DecodePaymentAddress s`: the Sapling address that `s` decodes to, `none` when
  `boost::get` on the decoded address gives a null pointer.
* `BIP44CoinType`, `ZIP32_HARDENED_KEY_LIMIT`: the chain parameter and the constant of
  `zcash/zip32.h`.
* `Master`, `Derive`, `DefaultAddress`: the key derivation of `zcash/zip32.h`.
* `GetSaplingIncomingViewingKey`, `GetSaplingFullViewingKey`, `HaveSaplingSpendingKey`: the
  wallet's look-ups; `none` when the call returns false.
* `GenerateNewSaplingZKey w`: the address returned and the key store afterwards. -/
structure DestEnv (W : Type) where
  consolidationdestaddress : Option String
  DecodePaymentAddress : String → Option SaplingPaymentAddress
  BIP44CoinType : Nat
  ZIP32_HARDENED_KEY_LIMIT : Nat
  Master : HDSeed → SaplingExtendedSpendingKey
  Derive : SaplingExtendedSpendingKey → Nat → SaplingExtendedSpendingKey
  DefaultAddress : SaplingExtendedSpendingKey → SaplingPaymentAddress
  GetSaplingIncomingViewingKey : W → SaplingPaymentAddress → Option SaplingIncomingViewingKey
  GetSaplingFullViewingKey : W → SaplingIncomingViewingKey → Option SaplingFullViewingKey
  HaveSaplingSpendingKey : W → SaplingFullViewingKey → Bool
  GenerateNewSaplingZKey : W → SaplingPaymentAddress × W

/-- Lines 210-222: the default address of Sapling account 0, at `m/32'/coin_type'/0'`. -/
def account0Address {W : Type} (env : DestEnv W) (seed : HDSeed) : SaplingPaymentAddress :=
  let m := env.Master seed
  let bip44CoinType := env.BIP44CoinType
  let m_32h := env.Derive m (32 ||| env.ZIP32_HARDENED_KEY_LIMIT)
  let m_32h_cth := env.Derive m_32h (bip44CoinType ||| env.ZIP32_HARDENED_KEY_LIMIT)
  let xsk := env.Derive m_32h_cth (0 ||| env.ZIP32_HARDENED_KEY_LIMIT)
  env.DefaultAddress xsk

/-- The test of lines 227-229, before negation: the wallet knows the incoming viewing key of
the address, the full viewing key of that, and holds its spending key. -/
def holdsSpendingKey {W : Type} (env : DestEnv W) (w : W) (toAddress : SaplingPaymentAddress) :
    Bool :=
  match env.GetSaplingIncomingViewingKey w toAddress with
  | none => false
  | some ivk =>
    match env.GetSaplingFullViewingKey w ivk with
    | none => false
    | some fvk => env.HaveSaplingSpendingKey w fvk

/-- How `getConsolidationDestAddress` ends: the address returned (`none` when an assertion
fails), the key store afterwards and the number of calls of `GenerateNewSaplingZKey`. -/
structure DestOutcome (W : Type) where
  address : Option SaplingPaymentAddress
  wallet : W
  generated : Nat

/-- The function `getConsolidationDestAddress` (lines 201-235) on the key store `w`. -/
def getConsolidationDestAddress {W : Type} (env : DestEnv W) (seed : HDSeed) (w : W) :
    DestOutcome W :=
  match env.consolidationdestaddress with
  | some consolidationDestAddress =>
    match env.DecodePaymentAddress consolidationDestAddress with
    | none => { address := none, wallet := w, generated := 0 }
    | some saplingAddress => { address := some saplingAddress, wallet := w, generated := 0 }
  | none =>
    let toAddress := account0Address env seed
    if !holdsSpendingKey env w toAddress then
      let g := env.GenerateNewSaplingZKey w
      if g.1 = toAddress then { address := some toAddress, wallet := g.2, generated := 1 }
      else { address := none, wallet := g.2, generated := 1 }
    else { address := some toAddress, wallet := w, generated := 0 }

/-! ## Sample wallets -/

/-- The spending key held for address `a` in the sample wallets. -/
def keyOf (a : SaplingPaymentAddress) : SaplingExtendedSpendingKey :=
  ⟨⟨a, a + 1000, a + 2000⟩⟩

/-- A sample environment: the wallet holds a spending key for every address below 10, the
incoming viewing key of address `a` is `a + 100`, every witness request is answered by `wit`
on each outpoint with anchor 77, `Build` for address number `k` answers `build k`, and
`cancel()` arrives as `cancel` says. -/
def sampleEnv (A : Option Int) (entries : List SaplingNoteEntry)
    (addrs : List SaplingPaymentAddress) (wit : SaplingOutPoint → Option SaplingWitness)
    (build : Nat → Except Raised String) (cancel : Nat → Bool) : Env :=
  { NextActivationHeight := fun _ => A
    saplingEntries := entries
    addresses := addrs
    GetSaplingExtendedSpendingKey := fun a => if a < 10 then some (keyOf a) else none
    GetSaplingIncomingViewingKey := fun a => some (a + 100)
    in_viewing_key := fun k => k.ask + 100
    GetSaplingNoteWitnesses := fun _ ops => (ops.map wit, 77)
    Build := fun k _ => build k
    cancelDuring := cancel }

/-- The note entry with outpoint `i` at address `a` and value `v`. -/
def entry (i : Nat) (a : SaplingPaymentAddress) (v : Nat) : SaplingNoteEntry :=
  { op := i, address := a, note := { value := v, r := i } }

/-! ## Specification helpers and sample runs -/

/-- The wallet of the grouping example: 30 notes at address 1 (values 1000, 2000, ...), each
followed by a note at address 2. -/
def thirtyNotes : List SaplingNoteEntry :=
  (List.range 30).flatMap (fun i => [entry (2 * i) 1 (1000 * (i + 1)), entry (2 * i + 1) 2 500])

/-- The spends for the longest prefix of `notes` whose witnesses are present, each note with
the witness at its own position. -/
def witnessedSpends (expsk : SaplingExpandedSpendingKey) (anchor : Anchor) :
    List SaplingNote → List (Option SaplingWitness) → List SpendDescriptionInfo
  | note :: notes, some w :: witnesses =>
    ⟨expsk, note, anchor, w⟩ :: witnessedSpends expsk anchor notes witnesses
  | _, _ => []

/-- The five notes of the witness-gap example at address 1, values 10000 to 50000. -/
def fiveNotes : List SaplingNoteEntry :=
  [entry 0 1 10000, entry 1 1 20000, entry 2 1 30000, entry 3 1 40000, entry 4 1 50000]

/-- The wallet of the witness-gap example: the witness of outpoint 2 is absent. -/
def gapEnv : Env :=
  sampleEnv none fiveNotes [1] (fun i => if i = 2 then none else some (i + 500))
    (fun _ => .ok "tx") (fun _ => false)

/-- The wallet of the two-note example: notes of values 30000 and 50000 at address 1, both
with a witness. -/
def twoNoteEnv : Env :=
  sampleEnv none [entry 0 1 30000, entry 1 1 50000] [1] (fun i => some (i + 500))
    (fun _ => .ok "tx") (fun _ => false)

/-- What a call of the address loop can be, for target height `T`: a `cancel()` from outside,
a wallet read, a builder made by `assemble`, a checkpoint, or the submission of a
transaction built from such a builder. -/
def loopEvent (env : Env) (T : Int) : Event → Prop
  | .set_state s => s = .CANCELLED
  | .GetSaplingExtendedSpendingKey _ => True
  | .GetSaplingIncomingViewingKey _ => True
  | .GetSaplingNoteWitnesses _ => True
  | .NewTransactionBuilder h => h = T
  | .Build b => ∃ k addr extsk, b = (assemble env T k addr extsk).builder
  | .checkpoint _ => True
  | .AddPendingSaplingConsolidationTx tx =>
    ∃ k addr extsk, tx.builder = (assemble env T k addr extsk).builder
  | _ => False

/-- The test of line 74. -/
def skipsRound (env : Env) (T : Int) : Prop :=
  (env.NextActivationHeight T).isSome ∧
    T + MIGRATION_EXPIRY_DELTA ≥ (env.NextActivationHeight T).getD 0

/-- The wallet of the one-note example: one note of value 50000 at address 1, with a witness;
`cancel()` arrives while address number `k` is processed when `cancel k` holds. -/
def oneNoteEnv (cancel : Nat → Bool) : Env :=
  sampleEnv none [entry 0 1 50000] [1] (fun i => some (i + 500)) (fun _ => .ok "tx") cancel

/-- The sample wallet with one note of value 50000 at address 1, whose build raises `e`. -/
def failingEnv (e : Raised) : Env :=
  sampleEnv none [entry 0 1 50000] [1] (fun i => some (i + 500)) (fun _ => .error e)
    (fun _ => false)

/-- The addresses of the outputs of the given transactions, in order. -/
def destinations (txs : List CTransaction) : List SaplingPaymentAddress :=
  txs.flatMap (fun tx => tx.builder.outputs.map (·.addr))

/-- The wallet of the two-group example: one note of value 50000 at address 1 and one of value
70000 at address 2, both with a witness; `Build` for address number `k` answers `build k`
and `cancel()` arrives as `cancel` says. -/
def twoGroupEnv (build : Nat → Except Raised String) (cancel : Nat → Bool) : Env :=
  sampleEnv none [entry 0 1 50000, entry 1 2 70000] [1, 2] (fun i => some (i + 500)) build
    cancel

/-- The builds of the two-group example when both succeed. -/
def twoBuilds (k : Nat) : Except Raised String :=
  if k = 0 then .ok "txA" else .ok "txB"

/-- The builds of the two-group example when the second raises `e`. -/
def secondBuildFails (e : Raised) (k : Nat) : Except Raised String :=
  if k = 0 then .ok "txA" else .error e

/-- The value, as a `CAmount`, of the last note of a group; 0 for an empty group. -/
def lastNoteAmount (fromNotes : List SaplingNoteEntry) : Int :=
  match fromNotes.getLast? with
  | some e => toCAmount e.note.value
  | none => 0

/-- The wallet of the no-match example: the wallet holds the key of address 1, the only
eligible note is at address 2, and the build raises `e`. -/
def noMatchEnv (e : Raised) : Env :=
  sampleEnv none [entry 0 2 50000] [1] (fun i => some (i + 500)) (fun _ => .error e)
    (fun _ => false)

/-- Whether the wallet holds the spending key of an address. -/
def hasKey (env : Env) (a : SaplingPaymentAddress) : Bool :=
  (env.GetSaplingExtendedSpendingKey a).isSome

/-- The spending-key lookup of an address whose key the wallet does not hold. -/
def keylessLookup (env : Env) : Event → Bool
  | .GetSaplingExtendedSpendingKey a => !hasKey env a
  | _ => false

/-- The same environment with the wallet's addresses restricted to those that have a
spending key. -/
def keyedOnly (env : Env) : Env :=
  { env with addresses := env.addresses.filter (hasKey env) }

/-- The wallet of the watch-only example: a note of value 50000 at address 1, whose key the
wallet holds, and a note of value 70000 at address 12, whose key it does not hold. -/
def watchOnlyEnv : Env :=
  sampleEnv none [entry 0 1 50000, entry 1 12 70000] [1, 12] (fun i => some (i + 500))
    (fun _ => .ok "tx") (fun _ => false)

/-- A sample wallet for the destination address: the key store is the list of addresses whose
keys the wallet holds, the incoming and full viewing keys of address `a` are `a + 100` and
`a + 200`, and `GenerateNewSaplingZKey` adds the default address of the next account,
numbered by the keys already held, of seed 5. -/
def sampleDestEnv : DestEnv (List SaplingPaymentAddress) :=
  { consolidationdestaddress := none
    DecodePaymentAddress := fun _ => none
    BIP44CoinType := 133
    ZIP32_HARDENED_KEY_LIMIT := 2147483648
    Master := fun seed => ⟨⟨seed, 0, 0⟩⟩
    Derive := fun x i => ⟨⟨(x.expsk.ask * 31 + i) % 1000003, 0, 0⟩⟩
    DefaultAddress := fun x => x.expsk.ask
    GetSaplingIncomingViewingKey := fun w a => if a ∈ w then some (a + 100) else none
    GetSaplingFullViewingKey := fun w ivk => if ivk - 100 ∈ w then some (ivk + 100) else none
    HaveSaplingSpendingKey := fun w fvk => decide (fvk - 200 ∈ w)
    GenerateNewSaplingZKey := fun w =>
      ((((5 * 31 + (32 ||| 2147483648)) % 1000003 * 31 + (133 ||| 2147483648)) % 1000003 * 31 +
          (w.length ||| 2147483648)) % 1000003,
        w ++ [(((5 * 31 + (32 ||| 2147483648)) % 1000003 * 31 + (133 ||| 2147483648)) %
          1000003 * 31 + (w.length ||| 2147483648)) % 1000003]) }

/-! ## Note selection (lines 101-118) -/

theorem selectStep_fromNotes (env : Env) (extsk : SaplingExtendedSpendingKey) (sel : Selection)
    (e : SaplingNoteEntry) :
    (selectStep env extsk sel e).fromNotes =
      sel.fromNotes ++ (if ivkMatches env extsk e then [e] else []) := by
  unfold selectStep
  split <;> simp

theorem selectNotes_cons_full (env : Env) (extsk : SaplingExtendedSpendingKey)
    (e : SaplingNoteEntry) (rest : List SaplingNoteEntry) (sel : Selection)
    (h : (selectStep env extsk sel e).fromNotes.length ≥ 25) :
    selectNotes env extsk (e :: rest) sel =
      (selectStep env extsk sel e, [.GetSaplingIncomingViewingKey e.address]) := by
  simp only [selectNotes, h, if_true]

theorem selectNotes_cons_more (env : Env) (extsk : SaplingExtendedSpendingKey)
    (e : SaplingNoteEntry) (rest : List SaplingNoteEntry) (sel : Selection)
    (h : ¬ (selectStep env extsk sel e).fromNotes.length ≥ 25) :
    selectNotes env extsk (e :: rest) sel =
      ((selectNotes env extsk rest (selectStep env extsk sel e)).1,
        .GetSaplingIncomingViewingKey e.address ::
          (selectNotes env extsk rest (selectStep env extsk sel e)).2) := by
  simp only [selectNotes, h, if_false]

/-- The selection loop appends to `fromNotes` the first matching entries, up to 25 in all. -/
theorem selectNotes_fromNotes (env : Env) (extsk : SaplingExtendedSpendingKey) :
    ∀ (entries : List SaplingNoteEntry) (sel : Selection), sel.fromNotes.length < 25 →
      (selectNotes env extsk entries sel).1.fromNotes =
        sel.fromNotes ++
          ((entries.filter (ivkMatches env extsk)).take (25 - sel.fromNotes.length)) := by
  intro entries
  induction entries with
  | nil => intro sel _; simp [selectNotes]
  | cons e rest ih =>
    intro sel hlen
    have hstep := selectStep_fromNotes env extsk sel e
    by_cases hm : ivkMatches env extsk e = true
    · simp only [hm, if_true] at hstep
      have hlen' : (selectStep env extsk sel e).fromNotes.length = sel.fromNotes.length + 1 := by
        rw [hstep]; simp
      by_cases hfull : (selectStep env extsk sel e).fromNotes.length ≥ 25
      · have h24 : 25 - sel.fromNotes.length = 1 := by omega
        rw [selectNotes_cons_full env extsk e rest sel hfull, List.filter_cons_of_pos hm, h24,
          hstep]
        simp
      · have hrec := ih (selectStep env extsk sel e) (by omega)
        have h : 25 - sel.fromNotes.length = (25 - (sel.fromNotes.length + 1)) + 1 := by omega
        rw [selectNotes_cons_more env extsk e rest sel hfull, List.filter_cons_of_pos hm, h,
          List.take_succ_cons]
        simp only [hrec, hstep, hlen']
        simp
    · simp only [hm, if_false, List.append_nil, Bool.false_eq_true] at hstep
      have hnot : ¬ (selectStep env extsk sel e).fromNotes.length ≥ 25 := by
        rw [hstep]; omega
      have hrec := ih (selectStep env extsk sel e) (by rw [hstep]; exact hlen)
      rw [selectNotes_cons_more env extsk e rest sel hnot, List.filter_cons_of_neg hm]
      simp only [hrec, hstep]

/-! ## The address loop, case by case (lines 97-165) -/

theorem cancelArrives_targetHeight (env : Env) (k : Nat) (o : Operation) :
    (cancelArrives env k o).targetHeight_ = o.targetHeight_ := by
  unfold cancelArrives
  split <;> rfl

/-- No spending key for the address: nothing but the key lookup happens for it. -/
theorem addressLoop_no_key (env : Env) (addr : SaplingPaymentAddress)
    (rest : List SaplingPaymentAddress) (k : Nat) (o : Operation) (t : Totals)
    (hkey : env.GetSaplingExtendedSpendingKey addr = none) :
    addressLoop env (addr :: rest) k o t =
      (addressLoop env rest (k + 1) (cancelArrives env k o) t).after
        (cancelCalls env k ++ [.GetSaplingExtendedSpendingKey addr]) := by
  simp only [addressLoop, hkey]

/-- The build raises: the loop is left with what was raised. -/
theorem addressLoop_raise (env : Env) (addr : SaplingPaymentAddress)
    (rest : List SaplingPaymentAddress) (k : Nat) (o : Operation) (t : Totals)
    (extsk : SaplingExtendedSpendingKey) (e : Raised)
    (hkey : env.GetSaplingExtendedSpendingKey addr = some extsk)
    (hbuild : env.Build k (assemble env o.targetHeight_ k addr extsk).builder = .error e) :
    addressLoop env (addr :: rest) k o t =
      { op := cancelArrives env k o
        totals := { t with amountConsolidated := t.amountConsolidated +
          (assemble env o.targetHeight_ k addr extsk).sel.amountToSend }
        raised := some e
        calls := groupCalls env k addr (assemble env o.targetHeight_ k addr extsk) } := by
  simp only [addressLoop, hkey, cancelArrives_targetHeight, hbuild]

/-- The build succeeds and the cancellation flag is set at the checkpoint: the loop is left
by `break`. -/
theorem addressLoop_break (env : Env) (addr : SaplingPaymentAddress)
    (rest : List SaplingPaymentAddress) (k : Nat) (o : Operation) (t : Totals)
    (extsk : SaplingExtendedSpendingKey) (hash : String)
    (hkey : env.GetSaplingExtendedSpendingKey addr = some extsk)
    (hbuild : env.Build k (assemble env o.targetHeight_ k addr extsk).builder = .ok hash)
    (hc : (cancelArrives env k o).isCancelled = true) :
    addressLoop env (addr :: rest) k o t =
      { op := cancelArrives env k o
        totals := { t with amountConsolidated := t.amountConsolidated +
          (assemble env o.targetHeight_ k addr extsk).sel.amountToSend }
        raised := none
        calls := groupCalls env k addr (assemble env o.targetHeight_ k addr extsk) ++
          [.checkpoint true] } := by
  simp only [addressLoop, hkey, cancelArrives_targetHeight, hbuild, hc, if_true]

/-- The build succeeds and the flag is not set: the transaction is submitted and the loop
goes on. -/
theorem addressLoop_submit (env : Env) (addr : SaplingPaymentAddress)
    (rest : List SaplingPaymentAddress) (k : Nat) (o : Operation) (t : Totals)
    (extsk : SaplingExtendedSpendingKey) (hash : String)
    (hkey : env.GetSaplingExtendedSpendingKey addr = some extsk)
    (hbuild : env.Build k (assemble env o.targetHeight_ k addr extsk).builder = .ok hash)
    (hc : (cancelArrives env k o).isCancelled = false) :
    addressLoop env (addr :: rest) k o t =
      (addressLoop env rest (k + 1) (cancelArrives env k o)
        { numTxCreated := t.numTxCreated
          consolidationTxIds := t.consolidationTxIds ++ [hash]
          amountConsolidated := t.amountConsolidated +
            (assemble env o.targetHeight_ k addr extsk).sel.amountToSend +
            ((assemble env o.targetHeight_ k addr extsk).sel.amountToSend - FEE) }).after
        (groupCalls env k addr (assemble env o.targetHeight_ k addr extsk) ++
          [.checkpoint false,
            .AddPendingSaplingConsolidationTx
              ⟨(assemble env o.targetHeight_ k addr extsk).builder, hash⟩]) := by
  simp only [addressLoop, hkey, cancelArrives_targetHeight, hbuild, hc]
  rfl

/-- The calls of the address loop when the wallet holds the key of the first address: they
begin with the calls of the group. -/
theorem addressLoop_calls_of_key (env : Env) (addr : SaplingPaymentAddress)
    (rest : List SaplingPaymentAddress) (k : Nat) (o : Operation) (t : Totals)
    (extsk : SaplingExtendedSpendingKey)
    (hkey : env.GetSaplingExtendedSpendingKey addr = some extsk) :
    ∃ tail, (addressLoop env (addr :: rest) k o t).calls =
      groupCalls env k addr (assemble env o.targetHeight_ k addr extsk) ++ tail := by
  cases hbuild : env.Build k (assemble env o.targetHeight_ k addr extsk).builder with
  | error e =>
    exact ⟨[], by rw [addressLoop_raise env addr rest k o t extsk e hkey hbuild]; simp⟩
  | ok hash =>
    cases hc : (cancelArrives env k o).isCancelled with
    | true =>
      exact ⟨_, by rw [addressLoop_break env addr rest k o t extsk hash hkey hbuild hc]⟩
    | false =>
      exact ⟨_, by
        rw [addressLoop_submit env addr rest k o t extsk hash hkey hbuild hc]
        simp only [LoopOutcome.after, List.append_assoc]
        rfl⟩

/-- C4: for every address whose spending key the wallet holds and every enumeration of
eligible notes, the group `fromNotes` selected for it is the first 25 entries, in enumeration
order, of the sub-list of entries whose incoming viewing key equals the key's incoming
viewing key: all of them when at most 25 match, exactly 25 when more match; and the address
loop asks the wallet for the witnesses of exactly these notes. -/
theorem C4_group_is_first_25_matching (env : Env) (k : Nat) (o : Operation) (t : Totals)
    (addr : SaplingPaymentAddress) (rest : List SaplingPaymentAddress)
    (extsk : SaplingExtendedSpendingKey)
    (hkey : env.GetSaplingExtendedSpendingKey addr = some extsk) :
    let matching := env.saplingEntries.filter
      (fun e => decide (noteIvk env e = env.in_viewing_key extsk.expsk))
    let fromNotes := (assemble env o.targetHeight_ k addr extsk).sel.fromNotes
    fromNotes = matching.take 25 ∧
      (matching.length ≤ 25 → fromNotes = matching) ∧
      (25 < matching.length → fromNotes.length = 25) ∧
      Event.GetSaplingNoteWitnesses ((matching.take 25).map (·.op)) ∈
        (addressLoop env (addr :: rest) k o t).calls := by
  intro matching fromNotes
  have h : fromNotes = matching.take 25 := by
    have := selectNotes_fromNotes env extsk env.saplingEntries ⟨[], 0⟩ (by simp)
    simpa [assemble, ivkMatches] using this
  refine ⟨h, ?_, ?_, ?_⟩
  · intro hle
    rw [h, List.take_of_length_le hle]
  · intro hgt
    rw [h, List.length_take]
    omega
  · obtain ⟨tail, htail⟩ := addressLoop_calls_of_key env addr rest k o t extsk hkey
    rw [htail, ← h]
    simp [groupCalls, assemble, fromNotes]

/-- C4 at the wallet `thirtyNotes`: the group of address 1 is its first 25 notes. -/
theorem C4_group_is_first_25_matching_witness :
    (sampleEnv none thirtyNotes [1, 2] (fun i => some i) (fun _ => .ok "tx")
        (fun _ => false)).GetSaplingExtendedSpendingKey 1 = some (keyOf 1) ∧
      (assemble (sampleEnv none thirtyNotes [1, 2] (fun i => some i) (fun _ => .ok "tx")
        (fun _ => false)) 1000 0 1 (keyOf 1)).sel.fromNotes =
        (List.range 25).map (fun i => entry (2 * i) 1 (1000 * (i + 1))) :=
  ⟨rfl, (C4_group_is_first_25_matching
    (sampleEnv none thirtyNotes [1, 2] (fun i => some i) (fun _ => .ok "tx") (fun _ => false))
    0 (Operation.new 1000) ⟨0, [], 0⟩ 1 [2] (keyOf 1) rfl).1.trans (by decide)⟩

/-! ## Spends and output (lines 125-151) -/

theorem getD_eq_head_drop (witnesses : List (Option SaplingWitness)) (i : Nat) :
    witnesses.getD i none = ((witnesses.drop i).head?).getD none := by
  induction witnesses generalizing i with
  | nil => simp
  | cons w ws ih =>
    cases i with
    | zero => simp
    | succ i => simp

theorem drop_succ_eq_tail_drop (witnesses : List (Option SaplingWitness)) (i : Nat) :
    witnesses.drop (i + 1) = (witnesses.drop i).tail := by
  induction witnesses generalizing i with
  | nil => simp
  | cons w ws ih =>
    cases i with
    | zero => simp
    | succ i => simp

/-- The spend loop only appends to the builder's spends: the witnessed prefix of the notes. -/
theorem addSaplingSpends_eq (expsk : SaplingExpandedSpendingKey) (anchor : Anchor)
    (witnesses : List (Option SaplingWitness)) :
    ∀ (notes : List SaplingNote) (i : Nat) (b : TransactionBuilder),
      addSaplingSpends expsk anchor witnesses notes i b =
        { b with spends := b.spends ++
            witnessedSpends expsk anchor notes (witnesses.drop i) } := by
  intro notes
  induction notes with
  | nil => intro i b; simp [addSaplingSpends, witnessedSpends]
  | cons n ns ih =>
    intro i b
    have hget := getD_eq_head_drop witnesses i
    have htail := drop_succ_eq_tail_drop witnesses i
    rw [addSaplingSpends]
    cases hd : witnesses.drop i with
    | nil =>
      rw [hd] at hget
      simp only [List.head?_nil, Option.getD_none] at hget
      rw [hget]
      simp [witnessedSpends]
    | cons w ws =>
      rw [hd] at hget htail
      simp only [List.head?_cons, Option.getD_some, List.tail_cons] at hget htail
      rw [hget]
      cases w with
      | none => simp [witnessedSpends]
      | some w =>
        simp only [ih, htail, witnessedSpends,
          TransactionBuilder.AddSaplingSpend, List.append_assoc, List.singleton_append]

theorem witnessedSpends_notes (expsk : SaplingExpandedSpendingKey) (anchor : Anchor) :
    ∀ (notes : List SaplingNote) (witnesses : List (Option SaplingWitness)),
      witnesses.length = notes.length →
      (witnessedSpends expsk anchor notes witnesses).map (·.note) =
        notes.take (witnesses.takeWhile Option.isSome).length := by
  intro notes
  induction notes with
  | nil => intro witnesses _; simp [witnessedSpends]
  | cons n ns ih =>
    intro witnesses hlen
    cases witnesses with
    | nil => simp at hlen
    | cons w ws =>
      cases w with
      | none => simp [witnessedSpends]
      | some w =>
        have := ih ws (by simpa using hlen)
        simp [witnessedSpends, this]

theorem witnessedSpends_witnesses (expsk : SaplingExpandedSpendingKey) (anchor : Anchor) :
    ∀ (notes : List SaplingNote) (witnesses : List (Option SaplingWitness)),
      witnesses.length = notes.length →
      (witnessedSpends expsk anchor notes witnesses).map (fun s => some s.witness) =
        witnesses.takeWhile Option.isSome := by
  intro notes
  induction notes with
  | nil =>
    intro witnesses hlen
    have : witnesses = [] := List.length_eq_zero.mp (by simpa using hlen)
    simp [witnessedSpends, this]
  | cons n ns ih =>
    intro witnesses hlen
    cases witnesses with
    | nil => simp at hlen
    | cons w ws =>
      cases w with
      | none => simp [witnessedSpends]
      | some w =>
        have := ih ws (by simpa using hlen)
        simp [witnessedSpends, this]

theorem witnessedSpends_keys (expsk : SaplingExpandedSpendingKey) (anchor : Anchor) :
    ∀ (notes : List SaplingNote) (witnesses : List (Option SaplingWitness)),
      ∀ s ∈ witnessedSpends expsk anchor notes witnesses,
        s.anchor = anchor ∧ s.expsk = expsk := by
  intro notes
  induction notes with
  | nil => intro witnesses s hs; simp [witnessedSpends] at hs
  | cons n ns ih =>
    intro witnesses s hs
    cases witnesses with
    | nil => simp [witnessedSpends] at hs
    | cons w ws =>
      cases w with
      | none => simp [witnessedSpends] at hs
      | some w =>
        simp only [witnessedSpends, List.mem_cons] at hs
        rcases hs with rfl | hs
        · exact ⟨rfl, rfl⟩
        · exact ih ws s hs

/-- The builder handed to `Build`, field by field. -/
theorem assemble_builder (env : Env) (targetHeight : Int) (k : Nat)
    (addr : SaplingPaymentAddress) (extsk : SaplingExtendedSpendingKey) :
    let a := assemble env targetHeight k addr extsk
    let w := env.GetSaplingNoteWitnesses k (a.sel.fromNotes.map (·.op))
    a.builder =
      { nHeight := targetHeight
        expiryHeight := some (targetHeight + MIGRATION_EXPIRY_DELTA)
        fee := some FEE
        spends := witnessedSpends extsk.expsk w.2 (a.sel.fromNotes.map (·.note)) w.1
        outputs := [⟨extsk.expsk.ovk, addr, a.sel.amountToSend - FEE⟩] } := by
  simp [assemble, addSaplingSpends_eq, TransactionBuilder.new,
    TransactionBuilder.SetExpiryHeight, TransactionBuilder.SetFee,
    TransactionBuilder.AddSaplingOutput]

/-- The selection does not look at the witnesses. -/
theorem selectNotes_witnesses_irrelevant (env : Env)
    (W : Nat → List SaplingOutPoint → List (Option SaplingWitness) × Anchor)
    (extsk : SaplingExtendedSpendingKey) :
    ∀ (entries : List SaplingNoteEntry) (sel : Selection),
      selectNotes { env with GetSaplingNoteWitnesses := W } extsk entries sel =
        selectNotes env extsk entries sel := by
  intro entries
  induction entries with
  | nil => intro sel; rfl
  | cons e rest ih =>
    intro sel
    have hstep : selectStep { env with GetSaplingNoteWitnesses := W } extsk sel e =
        selectStep env extsk sel e := rfl
    simp only [selectNotes, hstep, ih]

/-- C1: at a group of two notes of values 30000 and 50000, both with a witness, both notes
are spent but the value of the single output passed to the builder is 40000 (the last
note's value minus the fee), not the group's sum minus the fee, 70000. -/
theorem C1_output_is_not_group_sum :
    (assemble twoNoteEnv 1000 0 1 (keyOf 1)).sel.fromNotes.map (·.note.value) =
        [30000, 50000] ∧
      (assemble twoNoteEnv 1000 0 1 (keyOf 1)).builder.spends.map (·.note.value) =
        [30000, 50000] ∧
      (assemble twoNoteEnv 1000 0 1 (keyOf 1)).builder.outputs.map (·.value) = [40000] ∧
      ((assemble twoNoteEnv 1000 0 1 (keyOf 1)).sel.fromNotes.map
        (fun e => toCAmount e.note.value)).sum - FEE = 70000 := by
  decide

/-- C2, refuted as stated: with 5 notes whose witness at index 2 is absent, the spends are
notes 0 and 1 (values 10000 and 20000) but the output value is 40000, not
10000 + 20000 - 10000; and with a single note of value 50000 whose witness is absent there is
no spend and the output value is 40000, not 0 - 10000. -/
theorem C2_counterexample :
    (assemble gapEnv 1000 0 1 (keyOf 1)).builder.spends.map (·.note.value) = [10000, 20000] ∧
      (assemble gapEnv 1000 0 1 (keyOf 1)).builder.outputs.map (·.value) = [40000] ∧
      (assemble gapEnv 1000 0 1 (keyOf 1)).builder.outputs.map (·.value) ≠
        [((assemble gapEnv 1000 0 1 (keyOf 1)).builder.spends.map
          (fun s => toCAmount s.note.value)).sum - FEE] ∧
      (assemble (sampleEnv none [entry 0 1 50000] [1] (fun _ => none) (fun _ => .ok "tx")
        (fun _ => false)) 1000 0 1 (keyOf 1)).builder.spends = [] ∧
      (assemble (sampleEnv none [entry 0 1 50000] [1] (fun _ => none) (fun _ => .ok "tx")
        (fun _ => false)) 1000 0 1 (keyOf 1)).builder.outputs.map (·.value) = [40000] := by
  decide

/-- C2, amended: the output value passed to the builder is `amountToSend - FEE`, where
`amountToSend` is fixed by the note selection before any witness is fetched; neither the
selection nor the output depends on which witnesses the wallet returns (a missing witness
only shortens the list of spends). -/
theorem C2_output_ignores_witnesses (env : Env) (targetHeight : Int) (k : Nat)
    (addr : SaplingPaymentAddress) (extsk : SaplingExtendedSpendingKey)
    (W : Nat → List SaplingOutPoint → List (Option SaplingWitness) × Anchor) :
    let a := assemble env targetHeight k addr extsk
    let a' := assemble { env with GetSaplingNoteWitnesses := W } targetHeight k addr extsk
    a.builder.outputs = [⟨extsk.expsk.ovk, addr, a.sel.amountToSend - FEE⟩] ∧
      a'.sel = a.sel ∧ a'.builder.outputs = a.builder.outputs := by
  intro a a'
  have hsel : a'.sel = a.sel := by
    simp only [a, a', assemble, selectNotes_witnesses_irrelevant]
  have ha := assemble_builder env targetHeight k addr extsk
  have ha' := assemble_builder { env with GetSaplingNoteWitnesses := W } targetHeight k addr extsk
  simp only at ha ha'
  refine ⟨by rw [ha], hsel, ?_⟩
  show (assemble { env with GetSaplingNoteWitnesses := W } targetHeight k addr extsk).builder.outputs
    = (assemble env targetHeight k addr extsk).builder.outputs
  rw [ha', ha]
  simp only [a, a'] at hsel
  simp only [hsel]

/-- C3: when the wallet returns as many witnesses as there are notes in the group, the spends
added to the builder are the notes of the longest prefix whose witnesses are all present, in
order, each with the witness at its own position, the group's single anchor and the address's
key; nothing at or after the first missing witness is added. -/
theorem C3_spends_are_the_witnessed_notes (env : Env) (targetHeight : Int) (k : Nat)
    (addr : SaplingPaymentAddress) (extsk : SaplingExtendedSpendingKey)
    (hlen : (env.GetSaplingNoteWitnesses k
        ((assemble env targetHeight k addr extsk).sel.fromNotes.map (·.op))).1.length =
      (assemble env targetHeight k addr extsk).sel.fromNotes.length) :
    let a := assemble env targetHeight k addr extsk
    let w := env.GetSaplingNoteWitnesses k (a.sel.fromNotes.map (·.op))
    let m := (w.1.takeWhile Option.isSome).length
    a.builder.spends.map (·.note) = (a.sel.fromNotes.map (·.note)).take m ∧
      a.builder.spends.map (fun s => some s.witness) = w.1.takeWhile Option.isSome ∧
      a.builder.spends.length = m ∧
      (∀ s ∈ a.builder.spends, s.anchor = w.2 ∧ s.expsk = extsk.expsk) := by
  intro a w m
  have ha := assemble_builder env targetHeight k addr extsk
  simp only at ha
  have hlen' : w.1.length = (a.sel.fromNotes.map (·.note)).length := by
    simpa using hlen
  have hsp : a.builder.spends =
      witnessedSpends extsk.expsk w.2 (a.sel.fromNotes.map (·.note)) w.1 := by
    simp only [a, w]; rw [ha]
  have hw := witnessedSpends_witnesses extsk.expsk w.2 _ w.1 hlen'
  refine ⟨?_, ?_, ?_, ?_⟩
  · rw [hsp]; exact witnessedSpends_notes extsk.expsk w.2 _ w.1 hlen'
  · rw [hsp]; exact hw
  · have := congrArg List.length hw
    rw [hsp]; simpa using this
  · rw [hsp]; exact witnessedSpends_keys extsk.expsk w.2 _ w.1

/-- C3 at the witness-gap example: of 5 notes with the witness at index 2 absent, exactly
the notes at indices 0 and 1 are spent. -/
theorem C3_spends_are_the_witnessed_notes_witness :
    (gapEnv.GetSaplingNoteWitnesses 0
        ((assemble gapEnv 1000 0 1 (keyOf 1)).sel.fromNotes.map (·.op))).1.length =
      (assemble gapEnv 1000 0 1 (keyOf 1)).sel.fromNotes.length ∧
      (assemble gapEnv 1000 0 1 (keyOf 1)).builder.spends.map (·.note) =
        [⟨10000, 0⟩, ⟨20000, 1⟩] :=
  ⟨by decide,
    (C3_spends_are_the_witnessed_notes gapEnv 1000 0 1 (keyOf 1) (by decide)).1.trans (by decide)⟩

/-! ## The shape of the calls of one run -/

theorem selectNotes_calls (env : Env) (extsk : SaplingExtendedSpendingKey) :
    ∀ (entries : List SaplingNoteEntry) (sel : Selection),
      ∀ e ∈ (selectNotes env extsk entries sel).2,
        ∃ a, e = Event.GetSaplingIncomingViewingKey a := by
  intro entries
  induction entries with
  | nil => intro sel e he; simp [selectNotes] at he
  | cons x rest ih =>
    intro sel e he
    by_cases hfull : (selectStep env extsk sel x).fromNotes.length ≥ 25
    · rw [selectNotes_cons_full env extsk x rest sel hfull] at he
      exact ⟨x.address, by simpa using he⟩
    · rw [selectNotes_cons_more env extsk x rest sel hfull] at he
      simp only [List.mem_cons] at he
      rcases he with rfl | he
      · exact ⟨x.address, rfl⟩
      · exact ih _ e he

theorem cancelCalls_mem (env : Env) (k : Nat) (e : Event) (he : e ∈ cancelCalls env k) :
    e = .set_state .CANCELLED := by
  unfold cancelCalls at he
  split at he
  · simpa using he
  · simp at he

theorem groupCalls_mem (env : Env) (T : Int) (k : Nat) (addr : SaplingPaymentAddress)
    (extsk : SaplingExtendedSpendingKey) (e : Event)
    (he : e ∈ groupCalls env k addr (assemble env T k addr extsk)) :
    loopEvent env T e ∧ e ≠ .checkpoint true := by
  simp only [groupCalls, List.mem_append, List.mem_singleton] at he
  rcases he with ((he | he) | he) | he
  · rw [cancelCalls_mem env k e he]; exact ⟨rfl, by simp⟩
  · rw [he]; exact ⟨trivial, by simp⟩
  · simp only [assemble, List.mem_append, List.mem_cons, List.mem_singleton,
      List.not_mem_nil, or_false] at he
    rcases he with he | he | he
    · obtain ⟨a, rfl⟩ := selectNotes_calls env extsk _ _ e he
      exact ⟨trivial, by simp⟩
    · rw [he]; exact ⟨rfl, by simp⟩
    · rw [he]; exact ⟨trivial, by simp⟩
  · rw [he]; exact ⟨⟨k, addr, extsk, rfl⟩, by simp⟩

/-- Every call of the address loop has the shape `loopEvent`. -/
theorem addressLoop_calls (env : Env) :
    ∀ (addrs : List SaplingPaymentAddress) (k : Nat) (o : Operation) (t : Totals),
      ∀ e ∈ (addressLoop env addrs k o t).calls, loopEvent env o.targetHeight_ e := by
  intro addrs
  induction addrs with
  | nil => intro k o t e he; simp [addressLoop] at he
  | cons addr rest ih =>
    intro k o t e he
    have hT := cancelArrives_targetHeight env k o
    cases hkey : env.GetSaplingExtendedSpendingKey addr with
    | none =>
      rw [addressLoop_no_key env addr rest k o t hkey] at he
      simp only [LoopOutcome.after, List.mem_append, List.mem_singleton] at he
      rcases he with (he | he) | he
      · rw [cancelCalls_mem env k e he]; rfl
      · rw [he]; trivial
      · have := ih (k + 1) (cancelArrives env k o) t e he
        rwa [hT] at this
    | some extsk =>
      cases hbuild : env.Build k (assemble env o.targetHeight_ k addr extsk).builder with
      | error x =>
        rw [addressLoop_raise env addr rest k o t extsk x hkey hbuild] at he
        exact (groupCalls_mem env _ k addr extsk e he).1
      | ok hash =>
        cases hc : (cancelArrives env k o).isCancelled with
        | true =>
          rw [addressLoop_break env addr rest k o t extsk hash hkey hbuild hc] at he
          simp only [List.mem_append, List.mem_singleton] at he
          rcases he with he | he
          · exact (groupCalls_mem env _ k addr extsk e he).1
          · rw [he]; trivial
        | false =>
          rw [addressLoop_submit env addr rest k o t extsk hash hkey hbuild hc] at he
          simp only [LoopOutcome.after, List.mem_append, List.mem_cons, List.mem_singleton,
            List.not_mem_nil, or_false] at he
          rcases he with (he | he | he) | he
          · exact (groupCalls_mem env _ k addr extsk e he).1
          · rw [he]; trivial
          · rw [he]; exact ⟨k, addr, extsk, rfl⟩
          · have := ih (k + 1) (cancelArrives env k o) _ e he
            rwa [hT] at this

/-- A cancellation seen at the checkpoint ends the loop without anything raised. -/
theorem addressLoop_checkpoint_true (env : Env) :
    ∀ (addrs : List SaplingPaymentAddress) (k : Nat) (o : Operation) (t : Totals),
      Event.checkpoint true ∈ (addressLoop env addrs k o t).calls →
        (addressLoop env addrs k o t).raised = none := by
  intro addrs
  induction addrs with
  | nil => intro k o t he; simp [addressLoop] at he
  | cons addr rest ih =>
    intro k o t he
    cases hkey : env.GetSaplingExtendedSpendingKey addr with
    | none =>
      rw [addressLoop_no_key env addr rest k o t hkey] at he ⊢
      simp only [LoopOutcome.after, List.mem_append, List.mem_singleton] at he ⊢
      rcases he with (he | he) | he
      · have := cancelCalls_mem env k _ he
        simp at this
      · simp at he
      · exact ih _ _ _ he
    | some extsk =>
      cases hbuild : env.Build k (assemble env o.targetHeight_ k addr extsk).builder with
      | error x =>
        rw [addressLoop_raise env addr rest k o t extsk x hkey hbuild] at he
        exact absurd rfl (groupCalls_mem env _ k addr extsk _ he).2
      | ok hash =>
        cases hc : (cancelArrives env k o).isCancelled with
        | true => rw [addressLoop_break env addr rest k o t extsk hash hkey hbuild hc]
        | false =>
          rw [addressLoop_submit env addr rest k o t extsk hash hkey hbuild hc] at he ⊢
          simp only [LoopOutcome.after, List.mem_append, List.mem_cons, List.mem_singleton,
            List.not_mem_nil, or_false] at he ⊢
          rcases he with (he | he | he) | he
          · exact absurd rfl (groupCalls_mem env _ k addr extsk _ he).2
          · simp at he
          · simp at he
          · exact ih _ _ _ he

/-- The address loop leaves the state as it was or `CANCELLED`, and nothing else changed. -/
theorem addressLoop_op (env : Env) :
    ∀ (addrs : List SaplingPaymentAddress) (k : Nat) (o : Operation) (t : Totals),
      (addressLoop env addrs k o t).op = o ∨ (addressLoop env addrs k o t).op = o.cancel := by
  intro addrs
  induction addrs with
  | nil => intro k o t; left; rfl
  | cons addr rest ih =>
    intro k o t
    have harr : cancelArrives env k o = o ∨ cancelArrives env k o = o.cancel := by
      unfold cancelArrives; split
      · right; rfl
      · left; rfl
    have hcc : o.cancel.cancel = o.cancel := rfl
    have hrec : ∀ t', (addressLoop env rest (k + 1) (cancelArrives env k o) t').op = o ∨
        (addressLoop env rest (k + 1) (cancelArrives env k o) t').op = o.cancel := by
      intro t'
      rcases harr with h | h <;> rw [h]
      · exact ih _ _ _
      · rcases ih (k + 1) o.cancel t' with h' | h' <;> right <;> rw [h']
        exact hcc
    cases hkey : env.GetSaplingExtendedSpendingKey addr with
    | none =>
      rw [addressLoop_no_key env addr rest k o t hkey]
      exact hrec t
    | some extsk =>
      cases hbuild : env.Build k (assemble env o.targetHeight_ k addr extsk).builder with
      | error x =>
        rw [addressLoop_raise env addr rest k o t extsk x hkey hbuild]
        exact harr
      | ok hash =>
        cases hc : (cancelArrives env k o).isCancelled with
        | true =>
          rw [addressLoop_break env addr rest k o t extsk hash hkey hbuild hc]
          exact harr
        | false =>
          rw [addressLoop_submit env addr rest k o t extsk hash hkey hbuild hc]
          exact hrec _

/-! ## `main_impl` and `main`, case by case -/

theorem skipsRound_iff (env : Env) (T : Int) :
    skipsRound env T ↔ ∃ A, env.NextActivationHeight T = some A ∧ T + 450 ≥ A := by
  unfold skipsRound MIGRATION_EXPIRY_DELTA
  cases env.NextActivationHeight T <;> simp

/-- The round is skipped (lines 74-78). -/
theorem main_impl_skip (env : Env) (o : Operation) (h : skipsRound env o.targetHeight_) :
    main_impl env o =
      { op := o.setConsolidationResult 0 0 [], ret := .ok true,
        calls := [.NextActivationHeight o.targetHeight_,
          .set_result (consolidationResult 0 0 [])] } := by
  unfold skipsRound at h
  simp only [main_impl, h, and_self, if_true]

/-- The round is not skipped and the address loop raises. -/
theorem main_impl_raise (env : Env) (o : Operation) (e : Raised)
    (h : ¬ skipsRound env o.targetHeight_)
    (hr : (addressLoop env env.addresses 0 o ⟨0, [], 0⟩).raised = some e) :
    main_impl env o =
      { op := (addressLoop env env.addresses 0 o ⟨0, [], 0⟩).op, ret := .error e,
        calls := [.NextActivationHeight o.targetHeight_, .GetFilteredNotes,
          .GetSaplingPaymentAddresses] ++
          (addressLoop env env.addresses 0 o ⟨0, [], 0⟩).calls } := by
  unfold skipsRound at h
  simp only [main_impl, h, if_false, hr]

/-- The round is not skipped and the address loop ends without raising (lines 167-169). -/
theorem main_impl_return (env : Env) (o : Operation)
    (h : ¬ skipsRound env o.targetHeight_)
    (hr : (addressLoop env env.addresses 0 o ⟨0, [], 0⟩).raised = none) :
    main_impl env o =
      { op := (addressLoop env env.addresses 0 o ⟨0, [], 0⟩).op.setConsolidationResult
          (addressLoop env env.addresses 0 o ⟨0, [], 0⟩).totals.numTxCreated
          (addressLoop env env.addresses 0 o ⟨0, [], 0⟩).totals.amountConsolidated
          (addressLoop env env.addresses 0 o ⟨0, [], 0⟩).totals.consolidationTxIds,
        ret := .ok true,
        calls := [.NextActivationHeight o.targetHeight_, .GetFilteredNotes,
          .GetSaplingPaymentAddresses] ++
          (addressLoop env env.addresses 0 o ⟨0, [], 0⟩).calls ++
          [.set_result (consolidationResult
            (addressLoop env env.addresses 0 o ⟨0, [], 0⟩).totals.numTxCreated
            (addressLoop env env.addresses 0 o ⟨0, [], 0⟩).totals.amountConsolidated
            (addressLoop env env.addresses 0 o ⟨0, [], 0⟩).totals.consolidationTxIds)] } := by
  unfold skipsRound at h
  simp only [main_impl, h, if_false, hr]

/-- The worker `main_impl` returns `true` or raises; it never returns `false`. -/
theorem main_impl_ret (env : Env) (o : Operation) :
    (main_impl env o).ret = .ok true ∨ ∃ e, (main_impl env o).ret = .error e := by
  by_cases h : skipsRound env o.targetHeight_
  · left; rw [main_impl_skip env o h]
  · cases hr : (addressLoop env env.addresses 0 o ⟨0, [], 0⟩).raised with
    | none => left; rw [main_impl_return env o h hr]
    | some e => right; exact ⟨e, by rw [main_impl_raise env o e h hr]⟩

/-- The worker `main_impl` leaves the state as it was, or `CANCELLED`. -/
theorem main_impl_state (env : Env) (o : Operation) :
    (main_impl env o).op.state = o.state ∨ (main_impl env o).op.state = .CANCELLED := by
  by_cases h : skipsRound env o.targetHeight_
  · left; rw [main_impl_skip env o h]; rfl
  · have hop := addressLoop_op env env.addresses 0 o ⟨0, [], 0⟩
    cases hr : (addressLoop env env.addresses 0 o ⟨0, [], 0⟩).raised with
    | none =>
      rw [main_impl_return env o h hr]
      rcases hop with h' | h'
      · left; simp only [h']; rfl
      · right; simp only [h']; rfl
    | some e =>
      rw [main_impl_raise env o e h hr]
      rcases hop with h' | h'
      · left; simp only [h']
      · right; simp only [h']; rfl

/-- A cancellation seen at the checkpoint makes `main_impl` return `true`. -/
theorem main_impl_checkpoint_true (env : Env) (o : Operation)
    (hc : Event.checkpoint true ∈ (main_impl env o).calls) :
    (main_impl env o).ret = .ok true := by
  by_cases h : skipsRound env o.targetHeight_
  · rw [main_impl_skip env o h]
  · cases hr : (addressLoop env env.addresses 0 o ⟨0, [], 0⟩).raised with
    | none => rw [main_impl_return env o h hr]
    | some e =>
      rw [main_impl_raise env o e h hr] at hc
      simp only [List.mem_append, List.mem_cons, List.mem_singleton, List.not_mem_nil,
        or_false, reduceCtorEq, false_or] at hc
      have := addressLoop_checkpoint_true env env.addresses 0 o ⟨0, [], 0⟩ hc
      rw [hr] at this
      exact absurd this (by simp)

/-- A builder or a submission in the calls of `main_impl`: the round was not skipped and the
call comes from the address loop. -/
theorem main_impl_loop_call (env : Env) (o : Operation) (e : Event)
    (he : e ∈ (main_impl env o).calls) (hk : e.isBuilderCall = true ∨ e.isSubmission = true) :
    ¬ skipsRound env o.targetHeight_ ∧ loopEvent env o.targetHeight_ e := by
  by_cases h : skipsRound env o.targetHeight_
  · rw [main_impl_skip env o h] at he
    simp only [List.mem_cons, List.mem_singleton, List.not_mem_nil, or_false] at he
    rcases he with rfl | rfl <;> simp [Event.isBuilderCall, Event.isSubmission] at hk
  · refine ⟨h, ?_⟩
    have hloop := addressLoop_calls env env.addresses 0 o ⟨0, [], 0⟩ e
    cases hr : (addressLoop env env.addresses 0 o ⟨0, [], 0⟩).raised with
    | none =>
      rw [main_impl_return env o h hr] at he
      simp only [List.mem_append, List.mem_cons, List.mem_singleton, List.not_mem_nil,
        or_false] at he
      rcases he with ((rfl | rfl | rfl) | he) | rfl
      · simp [Event.isBuilderCall, Event.isSubmission] at hk
      · simp [Event.isBuilderCall, Event.isSubmission] at hk
      · simp [Event.isBuilderCall, Event.isSubmission] at hk
      · exact hloop he
      · simp [Event.isBuilderCall, Event.isSubmission] at hk
    | some x =>
      rw [main_impl_raise env o x h hr] at he
      simp only [List.mem_append, List.mem_cons, List.mem_singleton, List.not_mem_nil,
        or_false] at he
      rcases he with (rfl | rfl | rfl) | he
      · simp [Event.isBuilderCall, Event.isSubmission] at hk
      · simp [Event.isBuilderCall, Event.isSubmission] at hk
      · simp [Event.isBuilderCall, Event.isSubmission] at hk
      · exact hloop he

/-- Entered while `CANCELLED`, `main` returns at once (lines 23-24). -/
theorem main_cancelled (env : Env) (o : Operation) (h : o.state = .CANCELLED) :
    main env o = { op := o, calls := [], escaped := none } := by
  simp [main, Operation.isCancelled, h]

/-- Not cancelled at entry and `main_impl` returns: lines 52-58 follow. -/
theorem main_of_return (env : Env) (o : Operation) (success : Bool)
    (h : o.state ≠ .CANCELLED)
    (hret : (main_impl env (o.set_state .EXECUTING)).ret = .ok success) :
    main env o =
      finish (main_impl env (o.set_state .EXECUTING)).op success
        ([.set_state .EXECUTING, .start_execution_clock] ++
          (main_impl env (o.set_state .EXECUTING)).calls) := by
  simp only [main, Operation.isCancelled, h, decide_False, Bool.false_eq_true, if_false, hret]

/-- Not cancelled at entry, `main_impl` raises and a handler sets code and message. -/
theorem main_of_handled (env : Env) (o : Operation) (e : Raised) (code : Int)
    (message : String) (h : o.state ≠ .CANCELLED)
    (hret : (main_impl env (o.set_state .EXECUTING)).ret = .error e)
    (hh : handle e = .ok (code, message)) :
    main env o =
      { op := (((main_impl env (o.set_state .EXECUTING)).op.set_error_code
          code).set_error_message message).set_state .FAILED,
        calls := [.set_state .EXECUTING, .start_execution_clock] ++
          (main_impl env (o.set_state .EXECUTING)).calls ++
          [.set_error_code code, .set_error_message message] ++
          [.stop_execution_clock, .set_state .FAILED],
        escaped := none } := by
  simp only [main, Operation.isCancelled, h, decide_False, Bool.false_eq_true, if_false, hret,
    hh, finish]

/-- Not cancelled at entry, `main_impl` raises an error object without an integer code or
a string message: the handler raises before anything is set. -/
theorem main_of_escaped (env : Env) (o : Operation) (e e' : Raised)
    (h : o.state ≠ .CANCELLED)
    (hret : (main_impl env (o.set_state .EXECUTING)).ret = .error e)
    (hh : handle e = .error e') :
    main env o =
      { op := (main_impl env (o.set_state .EXECUTING)).op,
        calls := [.set_state .EXECUTING, .start_execution_clock] ++
          (main_impl env (o.set_state .EXECUTING)).calls,
        escaped := some e' } := by
  simp only [main, Operation.isCancelled, h, decide_False, Bool.false_eq_true, if_false, hret,
    hh]

/-! ## The run as a whole -/

/-- C5: when the consensus provider reports a next activation height `A` with
`T + 450 >= A`, a run started from `READY` ends in `SUCCESS` with the result
`num_tx_created = 0`, `amount_consolidated = 0` and no transaction ids; its only calls are
the state and clock calls of `main`, the activation height query and `set_result`: no wallet
read, no builder call and no submission. -/
theorem C5_activation_boundary_skip (env : Env) (o : Operation) (A : Int)
    (hready : o.state = .READY)
    (hA : env.NextActivationHeight o.targetHeight_ = some A)
    (hskip : o.targetHeight_ + 450 ≥ A) :
    (main env o).escaped = none ∧
      (main env o).op.state = .SUCCESS ∧
      (main env o).op.result =
        some { num_tx_created := 0, amount_consolidated := 0, consolidation_txids := [] } ∧
      (main env o).calls =
        [.set_state .EXECUTING, .start_execution_clock,
          .NextActivationHeight o.targetHeight_,
          .set_result { num_tx_created := 0, amount_consolidated := 0, consolidation_txids := [] },
          .stop_execution_clock, .set_state .SUCCESS] ∧
      (∀ e ∈ (main env o).calls,
        e.isWalletRead = false ∧ e.isBuilderCall = false ∧ e.isSubmission = false) := by
  have hnc : o.state ≠ .CANCELLED := by rw [hready]; decide
  have hs : skipsRound env (o.set_state .EXECUTING).targetHeight_ :=
    (skipsRound_iff env _).mpr ⟨A, hA, hskip⟩
  have hmain := main_of_return env o true hnc (by rw [main_impl_skip env _ hs])
  rw [main_impl_skip env _ hs] at hmain
  simp only [finish, if_true] at hmain
  rw [hmain]
  refine ⟨rfl, rfl, rfl, rfl, ?_⟩
  intro e he
  simp only [List.cons_append, List.nil_append, List.mem_cons, List.mem_singleton,
    List.not_mem_nil, or_false] at he
  rcases he with rfl | rfl | rfl | rfl | rfl | rfl <;> exact ⟨rfl, rfl, rfl⟩

/-- C5 at target height 1000 with the next activation at height 1450. -/
theorem C5_activation_boundary_skip_witness :
    (Operation.new 1000).state = .READY ∧
      (sampleEnv (some 1450) fiveNotes [1] (fun i => some i) (fun _ => .ok "tx")
        (fun _ => false)).NextActivationHeight (Operation.new 1000).targetHeight_ =
        some 1450 ∧
      (Operation.new 1000).targetHeight_ + 450 ≥ (1450 : Int) ∧
      (main (sampleEnv (some 1450) fiveNotes [1] (fun i => some i) (fun _ => .ok "tx")
        (fun _ => false)) (Operation.new 1000)).op.state = .SUCCESS :=
  ⟨rfl, rfl, by decide,
    (C5_activation_boundary_skip
      (sampleEnv (some 1450) fiveNotes [1] (fun i => some i) (fun _ => .ok "tx")
        (fun _ => false))
      (Operation.new 1000) 1450 rfl rfl (by decide)).2.1⟩

/-- C6: with one address and one note of value 50000, the run hands one transaction to the
sink, whose output value is 40000, but records `amount_consolidated = 90000`: the group's
amount is added once at line 120 and once more, less the fee, at line 161. -/
theorem C6_amount_consolidated_double_counts :
    (main_impl (oneNoteEnv (fun _ => false)) (Operation.new 1000)).ret = .ok true ∧
      (submitted (main_impl (oneNoteEnv (fun _ => false)) (Operation.new 1000)).calls).map
        (fun tx => tx.builder.outputs.map (·.value)) = [[40000]] ∧
      (main_impl (oneNoteEnv (fun _ => false)) (Operation.new 1000)).op.result.map
        (·.amount_consolidated) = some 90000 ∧
      (main_impl (oneNoteEnv (fun _ => false)) (Operation.new 1000)).op.result.map
        (·.consolidation_txids) = some ["tx"] :=
  ⟨rfl, by decide, by decide, by decide⟩

/-- C7, refuted as stated: `cancel()` arrives while the only address is processed, the
checkpoint sees the flag, and `main` still ends by setting the state to `SUCCESS`. -/
theorem C7_counterexample :
    Event.set_state .CANCELLED ∈
        (main (oneNoteEnv (fun k => decide (k = 0))) (Operation.new 1000)).calls ∧
      Event.checkpoint true ∈
        (main (oneNoteEnv (fun k => decide (k = 0))) (Operation.new 1000)).calls ∧
      (main (oneNoteEnv (fun k => decide (k = 0))) (Operation.new 1000)).calls.getLast? =
        some (.set_state .SUCCESS) ∧
      (main (oneNoteEnv (fun k => decide (k = 0))) (Operation.new 1000)).op.state =
        .SUCCESS ∧
      (main (oneNoteEnv (fun k => decide (k = 0))) (Operation.new 1000)).op.state ≠
        .CANCELLED := by
  decide

/-- C7, amended: `CANCELLED` is kept only when `cancel()` comes before `main()`, which then
changes nothing.  In a run that is not cancelled at entry and that no exception leaves, the
last step of `main` assigns `SUCCESS` or `FAILED`, whatever `cancel()` did during the run;
when the cancellation was seen at the checkpoint, `main_impl` returns `true` and the state
after `main` is `SUCCESS`. -/
theorem C7_cancelled_kept_only_before_start (env : Env) (o : Operation) :
    (o.state = .CANCELLED → (main env o).op = o ∧ (main env o).calls = []) ∧
      (o.state ≠ .CANCELLED → (main env o).escaped = none →
        ((main env o).op.state = .SUCCESS ∨ (main env o).op.state = .FAILED) ∧
        (Event.checkpoint true ∈ (main env o).calls → (main env o).op.state = .SUCCESS)) := by
  refine ⟨fun h => by rw [main_cancelled env o h]; exact ⟨rfl, rfl⟩, ?_⟩
  intro hnc hesc
  have hcp := main_impl_checkpoint_true env (o.set_state .EXECUTING)
  rcases main_impl_ret env (o.set_state .EXECUTING) with hret | ⟨e, hret⟩
  · rw [main_of_return env o true hnc hret]
    simp only [finish, if_true]
    exact ⟨Or.inl rfl, fun _ => rfl⟩
  · rw [hret] at hcp
    cases hh : handle e with
    | error e' =>
      rw [main_of_escaped env o e e' hnc hret hh] at hesc
      simp at hesc
    | ok cm =>
      rw [main_of_handled env o e cm.1 cm.2 hnc hret hh]
      refine ⟨Or.inr rfl, fun hc => ?_⟩
      simp only [List.mem_append, List.mem_cons, List.mem_singleton, List.not_mem_nil,
        or_false, reduceCtorEq, false_or, or_self] at hc
      exact absurd (hcp hc) (by simp)

/-- C7 (amended) at the run of the counterexample: not cancelled at entry, cancelled while
the only address is processed, `SUCCESS` at the end. -/
theorem C7_cancelled_kept_only_before_start_witness :
    (Operation.new 1000).state ≠ .CANCELLED ∧
      (main (oneNoteEnv (fun k => decide (k = 0))) (Operation.new 1000)).escaped = none ∧
      Event.checkpoint true ∈
        (main (oneNoteEnv (fun k => decide (k = 0))) (Operation.new 1000)).calls ∧
      (main (oneNoteEnv (fun k => decide (k = 0))) (Operation.new 1000)).op.state =
        .SUCCESS :=
  ⟨by decide, by decide, by decide,
    ((C7_cancelled_kept_only_before_start (oneNoteEnv (fun k => decide (k = 0)))
      (Operation.new 1000)).2 (by decide) (by decide)).2 (by decide)⟩

/-- C8: if `cancel()` is called before `main()`, then `main()` does nothing: the operation is
returned as it was (state `CANCELLED`, error code, error message and result untouched), no
call is made at all (no `set_state`, hence never `EXECUTING`, no wallet read, no builder
call, no submission) and no exception leaves. -/
theorem C8_cancel_before_start_is_noop (env : Env) (o : Operation) :
    (main env o.cancel).op = o.cancel ∧
      (main env o.cancel).op.state = .CANCELLED ∧
      (main env o.cancel).op.error_code = o.error_code ∧
      (main env o.cancel).op.error_message = o.error_message ∧
      (main env o.cancel).op.result = o.result ∧
      (main env o.cancel).calls = [] ∧
      (main env o.cancel).escaped = none := by
  rw [main_cancelled env o.cancel rfl]
  exact ⟨rfl, rfl, rfl, rfl, rfl, rfl, rfl⟩

theorem getLast_append_pair (l : List Event) (a b : Event) :
    (l ++ [a, b]).getLast? = some b := by
  rw [show l ++ [a, b] = (l ++ [a]) ++ [b] by simp]
  exact List.getLast?_concat _

/-- What `main` leaves behind when a handler has set `code` and `message`. -/
theorem main_handled_outcome (env : Env) (o : Operation) (e : Raised) (code : Int)
    (message : String) (h : o.state ≠ .CANCELLED)
    (hret : (main_impl env (o.set_state .EXECUTING)).ret = .error e)
    (hh : handle e = .ok (code, message)) :
    (main env o).op.error_code = code ∧ (main env o).op.error_message = message ∧
      (main env o).op.state = .FAILED ∧
      (main env o).calls.getLast? = some (.set_state .FAILED) ∧
      (main env o).escaped = none := by
  rw [main_of_handled env o e code message h hret hh]
  exact ⟨rfl, rfl, rfl, getLast_append_pair _ _ _, rfl⟩

/-- C9: in a run not cancelled at entry, an error object raised by `main_impl` with integer
code `c` and string message `m` is recorded as code `c` and message `m`; a runtime error with
text `w` as code -1 and message "runtime error: " followed by `w`; a logic error as -1 and
"logic error: " followed by `w`; another standard exception as -1 and "general exception: "
followed by `w`; anything else as -2 and "unknown error".  In each of these cases the last
state set is `FAILED`; and the state after `main` is `SUCCESS` exactly when `main_impl`
returned `true`. -/
theorem C9_error_funnel (env : Env) (o : Operation) (hnc : o.state ≠ .CANCELLED) :
    (∀ c m, (main_impl env (o.set_state .EXECUTING)).ret =
        .error (.objError (some c) (some m)) →
      (main env o).op.error_code = c ∧ (main env o).op.error_message = m ∧
        (main env o).op.state = .FAILED ∧
        (main env o).calls.getLast? = some (.set_state .FAILED)) ∧
    (∀ w, (main_impl env (o.set_state .EXECUTING)).ret = .error (.runtime_error w) →
      (main env o).op.error_code = -1 ∧
        (main env o).op.error_message = "runtime error: " ++ w ∧
        (main env o).op.state = .FAILED ∧
        (main env o).calls.getLast? = some (.set_state .FAILED)) ∧
    (∀ w, (main_impl env (o.set_state .EXECUTING)).ret = .error (.logic_error w) →
      (main env o).op.error_code = -1 ∧
        (main env o).op.error_message = "logic error: " ++ w ∧
        (main env o).op.state = .FAILED ∧
        (main env o).calls.getLast? = some (.set_state .FAILED)) ∧
    (∀ w, (main_impl env (o.set_state .EXECUTING)).ret = .error (.exception w) →
      (main env o).op.error_code = -1 ∧
        (main env o).op.error_message = "general exception: " ++ w ∧
        (main env o).op.state = .FAILED ∧
        (main env o).calls.getLast? = some (.set_state .FAILED)) ∧
    ((main_impl env (o.set_state .EXECUTING)).ret = .error .other →
      (main env o).op.error_code = -2 ∧
        (main env o).op.error_message = "unknown error" ∧
        (main env o).op.state = .FAILED ∧
        (main env o).calls.getLast? = some (.set_state .FAILED)) ∧
    ((main env o).op.state = .SUCCESS ↔
      (main_impl env (o.set_state .EXECUTING)).ret = .ok true) := by
  refine ⟨?_, ?_, ?_, ?_, ?_, ?_⟩
  · intro c m hret
    have := main_handled_outcome env o _ c m hnc hret rfl
    exact ⟨this.1, this.2.1, this.2.2.1, this.2.2.2.1⟩
  · intro w hret
    have := main_handled_outcome env o _ (-1) ("runtime error: " ++ w) hnc hret rfl
    exact ⟨this.1, this.2.1, this.2.2.1, this.2.2.2.1⟩
  · intro w hret
    have := main_handled_outcome env o _ (-1) ("logic error: " ++ w) hnc hret rfl
    exact ⟨this.1, this.2.1, this.2.2.1, this.2.2.2.1⟩
  · intro w hret
    have := main_handled_outcome env o _ (-1) ("general exception: " ++ w) hnc hret rfl
    exact ⟨this.1, this.2.1, this.2.2.1, this.2.2.2.1⟩
  · intro hret
    have := main_handled_outcome env o _ (-2) "unknown error" hnc hret rfl
    exact ⟨this.1, this.2.1, this.2.2.1, this.2.2.2.1⟩
  · rcases main_impl_ret env (o.set_state .EXECUTING) with hret | ⟨e, hret⟩
    · refine ⟨fun _ => hret, fun _ => ?_⟩
      rw [main_of_return env o true hnc hret]
      rfl
    · constructor
      · intro hs
        cases hh : handle e with
        | error e' =>
          rw [main_of_escaped env o e e' hnc hret hh] at hs
          simp only at hs
          rcases main_impl_state env (o.set_state .EXECUTING) with h | h
          · rw [h] at hs; exact absurd hs (by simp [Operation.set_state])
          · rw [h] at hs; exact absurd hs (by simp)
        | ok cm =>
          have := (main_handled_outcome env o e cm.1 cm.2 hnc hret hh).2.2.1
          rw [this] at hs
          exact absurd hs (by simp)
      · intro hok
        rw [hret] at hok
        exact absurd hok (by simp)

/-- C9 at runs whose build raises an error object with code -4 and a message, and a runtime
error. -/
theorem C9_error_funnel_witness :
    (Operation.new 1000).state ≠ .CANCELLED ∧
      (main_impl (failingEnv (.objError (some (-4)) (some "Failed to build transaction")))
        ((Operation.new 1000).set_state .EXECUTING)).ret =
        .error (.objError (some (-4)) (some "Failed to build transaction")) ∧
      (main (failingEnv (.objError (some (-4)) (some "Failed to build transaction")))
        (Operation.new 1000)).op.error_code = -4 ∧
      (main_impl (failingEnv (.runtime_error "boom"))
        ((Operation.new 1000).set_state .EXECUTING)).ret = .error (.runtime_error "boom") ∧
      (main (failingEnv (.runtime_error "boom")) (Operation.new 1000)).op.error_message =
        "runtime error: " ++ "boom" :=
  ⟨by decide, rfl,
    ((C9_error_funnel (failingEnv (.objError (some (-4)) (some "Failed to build transaction")))
      (Operation.new 1000) (by decide)).1 (-4) "Failed to build transaction" rfl).1,
    rfl,
    ((C9_error_funnel (failingEnv (.runtime_error "boom")) (Operation.new 1000)
      (by decide)).2.1 "boom" rfl).2.1⟩

/-- C10: every builder on which `main_impl` calls `Build` was constructed for the target
height `T`, has expiry height `T + 450` and fee 10000, and so has the builder of every
transaction submitted; and when the consensus provider reports a next activation height `A`
for `T`, that expiry height is below `A`, since with `T + 450 >= A` the run makes no builder
call and no submission. -/
theorem C10_expiry_and_fee (env : Env) (o : Operation) :
    (∀ b, Event.Build b ∈ (main_impl env o).calls →
      b.nHeight = o.targetHeight_ ∧ b.expiryHeight = some (o.targetHeight_ + 450) ∧
        b.fee = some 10000 ∧
        ∀ A, env.NextActivationHeight o.targetHeight_ = some A → o.targetHeight_ + 450 < A) ∧
    (∀ tx, Event.AddPendingSaplingConsolidationTx tx ∈ (main_impl env o).calls →
      tx.builder.expiryHeight = some (o.targetHeight_ + 450) ∧ tx.builder.fee = some 10000 ∧
        ∀ A, env.NextActivationHeight o.targetHeight_ = some A → o.targetHeight_ + 450 < A) ∧
    (∀ A, env.NextActivationHeight o.targetHeight_ = some A → o.targetHeight_ + 450 ≥ A →
      ∀ e ∈ (main_impl env o).calls, e.isBuilderCall = false ∧ e.isSubmission = false) := by
  have hbelow : ¬ skipsRound env o.targetHeight_ →
      ∀ A, env.NextActivationHeight o.targetHeight_ = some A → o.targetHeight_ + 450 < A := by
    intro hns A hA
    by_contra hlt
    exact hns ((skipsRound_iff env _).mpr ⟨A, hA, by omega⟩)
  have hfields : ∀ k addr extsk,
      (assemble env o.targetHeight_ k addr extsk).builder.nHeight = o.targetHeight_ ∧
      (assemble env o.targetHeight_ k addr extsk).builder.expiryHeight =
        some (o.targetHeight_ + 450) ∧
      (assemble env o.targetHeight_ k addr extsk).builder.fee = some 10000 := by
    intro k addr extsk
    have := assemble_builder env o.targetHeight_ k addr extsk
    simp only at this
    rw [this]
    exact ⟨rfl, rfl, rfl⟩
  refine ⟨?_, ?_, ?_⟩
  · intro b hb
    obtain ⟨hns, k, addr, extsk, rfl⟩ := main_impl_loop_call env o _ hb (Or.inl rfl)
    obtain ⟨h1, h2, h3⟩ := hfields k addr extsk
    exact ⟨h1, h2, h3, hbelow hns⟩
  · intro tx htx
    obtain ⟨hns, k, addr, extsk, hb⟩ := main_impl_loop_call env o _ htx (Or.inr rfl)
    obtain ⟨_, h2, h3⟩ := hfields k addr extsk
    rw [hb]
    exact ⟨h2, h3, hbelow hns⟩
  · intro A hA hge e he
    have hs : skipsRound env o.targetHeight_ := (skipsRound_iff env _).mpr ⟨A, hA, hge⟩
    rw [main_impl_skip env o hs] at he
    simp only [List.mem_cons, List.mem_singleton, List.not_mem_nil, or_false] at he
    rcases he with rfl | rfl <;> exact ⟨rfl, rfl⟩

/-- C10 at target height 1000 with the next activation at height 2000: the builder of the
only group has expiry height 1450, below 2000. -/
theorem C10_expiry_and_fee_witness :
    Event.Build (assemble (sampleEnv (some 2000) [entry 0 1 50000] [1]
        (fun i => some (i + 500)) (fun _ => .ok "tx") (fun _ => false)) 1000 0 1
        (keyOf 1)).builder ∈
      (main_impl (sampleEnv (some 2000) [entry 0 1 50000] [1] (fun i => some (i + 500))
        (fun _ => .ok "tx") (fun _ => false)) (Operation.new 1000)).calls ∧
      (assemble (sampleEnv (some 2000) [entry 0 1 50000] [1]
        (fun i => some (i + 500)) (fun _ => .ok "tx") (fun _ => false)) 1000 0 1
        (keyOf 1)).builder.expiryHeight = some 1450 ∧
      (1000 : Int) + 450 < 2000 :=
  ⟨by decide,
    ((C10_expiry_and_fee (sampleEnv (some 2000) [entry 0 1 50000] [1]
      (fun i => some (i + 500)) (fun _ => .ok "tx") (fun _ => false))
      (Operation.new 1000)).1
      (assemble (sampleEnv (some 2000) [entry 0 1 50000] [1]
        (fun i => some (i + 500)) (fun _ => .ok "tx") (fun _ => false)) 1000 0 1
        (keyOf 1)).builder (by decide)).2.1,
    ((C10_expiry_and_fee (sampleEnv (some 2000) [entry 0 1 50000] [1]
      (fun i => some (i + 500)) (fun _ => .ok "tx") (fun _ => false))
      (Operation.new 1000)).1
      (assemble (sampleEnv (some 2000) [entry 0 1 50000] [1]
        (fun i => some (i + 500)) (fun _ => .ok "tx") (fun _ => false)) 1000 0 1
        (keyOf 1)).builder (by decide)).2.2.2 2000 rfl⟩

/-! ## Submissions and totals of the address loop -/

theorem submitted_cons_of_not (e : Event) (l : List Event) (h : e.isSubmission = false) :
    submitted (e :: l) = submitted l := by
  cases e <;> first | rfl | simp [Event.isSubmission] at h

theorem submitted_append (l₁ l₂ : List Event) :
    submitted (l₁ ++ l₂) = submitted l₁ ++ submitted l₂ := by
  induction l₁ with
  | nil => rfl
  | cons e l ih =>
    cases he : e.isSubmission with
    | false =>
      rw [List.cons_append, submitted_cons_of_not e _ he, submitted_cons_of_not e _ he, ih]
    | true =>
      cases e <;> simp [Event.isSubmission] at he
      simp [submitted, ih]

theorem submitted_eq_nil (l : List Event) (h : ∀ e ∈ l, e.isSubmission = false) :
    submitted l = [] := by
  induction l with
  | nil => rfl
  | cons e l ih =>
    rw [submitted_cons_of_not e l (h e (List.mem_cons_self _ _))]
    exact ih (fun x hx => h x (List.mem_cons_of_mem _ hx))

theorem mem_submitted (l : List Event) (tx : CTransaction) :
    tx ∈ submitted l ↔ Event.AddPendingSaplingConsolidationTx tx ∈ l := by
  induction l with
  | nil => simp [submitted]
  | cons e l ih =>
    cases he : e.isSubmission with
    | false =>
      rw [submitted_cons_of_not e _ he, ih, List.mem_cons]
      constructor
      · exact Or.inr
      · rintro (h | h)
        · rw [← h] at he; simp [Event.isSubmission] at he
        · exact h
    | true =>
      cases e <;> simp [Event.isSubmission] at he
      simp [submitted, ih]

/-- The calls of a group up to `Build`: an outside `cancel()`, wallet reads and builder
calls. -/
theorem groupCalls_kind (env : Env) (T : Int) (k : Nat) (addr : SaplingPaymentAddress)
    (extsk : SaplingExtendedSpendingKey) (e : Event)
    (he : e ∈ groupCalls env k addr (assemble env T k addr extsk)) :
    e = .set_state .CANCELLED ∨ e.isWalletRead = true ∨ e.isBuilderCall = true := by
  simp only [groupCalls, List.mem_append, List.mem_singleton] at he
  rcases he with ((he | he) | he) | he
  · exact Or.inl (cancelCalls_mem env k e he)
  · rw [he]; exact Or.inr (Or.inl rfl)
  · simp only [assemble, List.mem_append, List.mem_cons, List.mem_singleton,
      List.not_mem_nil, or_false] at he
    rcases he with he | he | he
    · obtain ⟨a, rfl⟩ := selectNotes_calls env extsk _ _ e he
      exact Or.inr (Or.inl rfl)
    · rw [he]; exact Or.inr (Or.inr rfl)
    · rw [he]; exact Or.inr (Or.inl rfl)
  · rw [he]; exact Or.inr (Or.inr rfl)

theorem groupCalls_submitted (env : Env) (T : Int) (k : Nat) (addr : SaplingPaymentAddress)
    (extsk : SaplingExtendedSpendingKey) :
    submitted (groupCalls env k addr (assemble env T k addr extsk)) = [] := by
  apply submitted_eq_nil
  intro e he
  rcases groupCalls_kind env T k addr extsk e he with h | h | h
  · rw [h]; rfl
  · cases e <;> first | rfl | simp [Event.isWalletRead] at h
  · cases e <;> first | rfl | simp [Event.isBuilderCall] at h

theorem cancelCalls_submitted (env : Env) (k : Nat) : submitted (cancelCalls env k) = [] := by
  apply submitted_eq_nil
  intro e he
  rw [cancelCalls_mem env k e he]; rfl

/-- The totals after the address loop: `numTxCreated` is untouched, and the transaction ids
added are the hashes of the transactions submitted, in order. -/
theorem addressLoop_totals (env : Env) :
    ∀ (addrs : List SaplingPaymentAddress) (k : Nat) (o : Operation) (t : Totals),
      (addressLoop env addrs k o t).totals.numTxCreated = t.numTxCreated ∧
      (addressLoop env addrs k o t).totals.consolidationTxIds =
        t.consolidationTxIds ++
          (submitted (addressLoop env addrs k o t).calls).map (·.hash) := by
  intro addrs
  induction addrs with
  | nil => intro k o t; simp [addressLoop, submitted]
  | cons addr rest ih =>
    intro k o t
    cases hkey : env.GetSaplingExtendedSpendingKey addr with
    | none =>
      rw [addressLoop_no_key env addr rest k o t hkey]
      obtain ⟨h1, h2⟩ := ih (k + 1) (cancelArrives env k o) t
      refine ⟨h1, ?_⟩
      simp only [LoopOutcome.after, submitted_append, cancelCalls_submitted, List.nil_append]
      rw [submitted_cons_of_not (.GetSaplingExtendedSpendingKey addr) _ rfl]
      exact h2
    | some extsk =>
      have hg := groupCalls_submitted env o.targetHeight_ k addr extsk
      cases hbuild : env.Build k (assemble env o.targetHeight_ k addr extsk).builder with
      | error x =>
        rw [addressLoop_raise env addr rest k o t extsk x hkey hbuild]
        simp [hg]
      | ok hash =>
        cases hc : (cancelArrives env k o).isCancelled with
        | true =>
          rw [addressLoop_break env addr rest k o t extsk hash hkey hbuild hc]
          simp [submitted_append, hg, submitted]
        | false =>
          rw [addressLoop_submit env addr rest k o t extsk hash hkey hbuild hc]
          obtain ⟨h1, h2⟩ := ih (k + 1) (cancelArrives env k o)
            { numTxCreated := t.numTxCreated
              consolidationTxIds := t.consolidationTxIds ++ [hash]
              amountConsolidated := t.amountConsolidated +
                (assemble env o.targetHeight_ k addr extsk).sel.amountToSend +
                ((assemble env o.targetHeight_ k addr extsk).sel.amountToSend - FEE) }
          refine ⟨h1, ?_⟩
          simp only [LoopOutcome.after, submitted_append, hg, List.nil_append]
          rw [h2]
          simp [submitted]

theorem groupCalls_split (env : Env) (k : Nat) (addr : SaplingPaymentAddress) (a : Assembly) :
    groupCalls env k addr a =
      (cancelCalls env k ++ [.GetSaplingExtendedSpendingKey addr] ++ a.calls) ++
        [.Build a.builder] := rfl

theorem after_calls (calls : List Event) (r : LoopOutcome) :
    (r.after calls).calls = calls ++ r.calls := rfl

/-- A raise leaves the loop right after the `Build` that raised. -/
theorem addressLoop_raised_last (env : Env) :
    ∀ (addrs : List SaplingPaymentAddress) (k : Nat) (o : Operation) (t : Totals) (e : Raised),
      (addressLoop env addrs k o t).raised = some e →
        ∃ pre b, (addressLoop env addrs k o t).calls = pre ++ [.Build b] := by
  intro addrs
  induction addrs with
  | nil => intro k o t e h; simp [addressLoop] at h
  | cons addr rest ih =>
    intro k o t e h
    cases hkey : env.GetSaplingExtendedSpendingKey addr with
    | none =>
      rw [addressLoop_no_key env addr rest k o t hkey] at h ⊢
      obtain ⟨pre, b, hpre⟩ := ih _ _ _ e h
      exact ⟨_ ++ pre, b, by rw [after_calls, hpre, ← List.append_assoc]⟩
    | some extsk =>
      cases hbuild : env.Build k (assemble env o.targetHeight_ k addr extsk).builder with
      | error x =>
        rw [addressLoop_raise env addr rest k o t extsk x hkey hbuild]
        exact ⟨_, _, groupCalls_split env k addr _⟩
      | ok hash =>
        cases hc : (cancelArrives env k o).isCancelled with
        | true =>
          rw [addressLoop_break env addr rest k o t extsk hash hkey hbuild hc] at h
          simp at h
        | false =>
          rw [addressLoop_submit env addr rest k o t extsk hash hkey hbuild hc] at h ⊢
          obtain ⟨pre, b, hpre⟩ := ih _ _ _ e h
          exact ⟨_ ++ pre, b, by rw [after_calls, hpre, ← List.append_assoc]⟩

/-- A cancellation seen at the checkpoint leaves the loop at once: the calls end with the
`Build` of that group and the checkpoint, and no earlier checkpoint saw the flag. -/
theorem addressLoop_checkpoint_last (env : Env) :
    ∀ (addrs : List SaplingPaymentAddress) (k : Nat) (o : Operation) (t : Totals),
      Event.checkpoint true ∈ (addressLoop env addrs k o t).calls →
        ∃ pre b, (addressLoop env addrs k o t).calls = pre ++ [.Build b, .checkpoint true] ∧
          Event.checkpoint true ∉ pre := by
  intro addrs
  induction addrs with
  | nil => intro k o t h; simp [addressLoop] at h
  | cons addr rest ih =>
    intro k o t h
    cases hkey : env.GetSaplingExtendedSpendingKey addr with
    | none =>
      rw [addressLoop_no_key env addr rest k o t hkey] at h ⊢
      simp only [LoopOutcome.after, List.mem_append, List.mem_singleton] at h
      have hhead : Event.checkpoint true ∉
          cancelCalls env k ++ [Event.GetSaplingExtendedSpendingKey addr] := by
        intro hm
        simp only [List.mem_append, List.mem_singleton] at hm
        rcases hm with hm | hm
        · have := cancelCalls_mem env k _ hm
          simp at this
        · simp at hm
      rcases h with h | h
      · exact absurd (by simpa using h) hhead
      · obtain ⟨pre, b, hpre, hnot⟩ := ih _ _ _ h
        refine ⟨_ ++ pre, b, by rw [after_calls, hpre, ← List.append_assoc], ?_⟩
        intro hm
        rcases List.mem_append.mp hm with hm | hm
        · exact hhead hm
        · exact hnot hm
    | some extsk =>
      have hg : Event.checkpoint true ∉
          groupCalls env k addr (assemble env o.targetHeight_ k addr extsk) :=
        fun hm => (groupCalls_mem env _ k addr extsk _ hm).2 rfl
      cases hbuild : env.Build k (assemble env o.targetHeight_ k addr extsk).builder with
      | error x =>
        rw [addressLoop_raise env addr rest k o t extsk x hkey hbuild] at h
        exact absurd h hg
      | ok hash =>
        cases hc : (cancelArrives env k o).isCancelled with
        | true =>
          rw [addressLoop_break env addr rest k o t extsk hash hkey hbuild hc]
          refine ⟨cancelCalls env k ++ [.GetSaplingExtendedSpendingKey addr] ++
            (assemble env o.targetHeight_ k addr extsk).calls,
            (assemble env o.targetHeight_ k addr extsk).builder, ?_, ?_⟩
          · rw [groupCalls_split]; simp only [List.append_assoc]; rfl
          · intro hm
            exact hg (by rw [groupCalls_split]; exact List.mem_append_left _ hm)
        | false =>
          rw [addressLoop_submit env addr rest k o t extsk hash hkey hbuild hc] at h ⊢
          simp only [LoopOutcome.after, List.mem_append, List.mem_cons, List.mem_singleton,
            List.not_mem_nil, or_false] at h
          have hhead : Event.checkpoint true ∉
              groupCalls env k addr (assemble env o.targetHeight_ k addr extsk) ++
                [Event.checkpoint false, Event.AddPendingSaplingConsolidationTx
                  ⟨(assemble env o.targetHeight_ k addr extsk).builder, hash⟩] := by
            intro hm
            simp only [List.mem_append, List.mem_cons, List.mem_singleton,
              List.not_mem_nil, or_false] at hm
            rcases hm with hm | hm | hm
            · exact hg hm
            · simp at hm
            · simp at hm
          rcases h with (h | h | h) | h
          · exact absurd h hg
          · simp at h
          · simp at h
          · obtain ⟨pre, b, hpre, hnot⟩ := ih _ _ _ h
            refine ⟨_ ++ pre, b, by rw [after_calls, hpre, ← List.append_assoc], ?_⟩
            intro hm
            rcases List.mem_append.mp hm with hm | hm
            · exact hhead hm
            · exact hnot hm

/-- The address loop never calls `set_result`. -/
theorem addressLoop_no_set_result (env : Env) (addrs : List SaplingPaymentAddress) (k : Nat)
    (o : Operation) (t : Totals) (res : ConsolidationResult) :
    Event.set_result res ∉ (addressLoop env addrs k o t).calls :=
  fun h => addressLoop_calls env addrs k o t _ h

/-- The address loop leaves the recorded result alone. -/
theorem addressLoop_result (env : Env) (addrs : List SaplingPaymentAddress) (k : Nat)
    (o : Operation) (t : Totals) :
    (addressLoop env addrs k o t).op.result = o.result := by
  rcases addressLoop_op env addrs k o t with h | h
  · rw [h]
  · rw [h]; rfl

/-- The transactions submitted by `main_impl` are those submitted by the address loop. -/
theorem main_impl_submitted (env : Env) (o : Operation)
    (h : ¬ skipsRound env o.targetHeight_) :
    submitted (main_impl env o).calls =
      submitted (addressLoop env env.addresses 0 o ⟨0, [], 0⟩).calls := by
  cases hr : (addressLoop env env.addresses 0 o ⟨0, [], 0⟩).raised with
  | none =>
    rw [main_impl_return env o h hr]
    simp [submitted_append, submitted]
  | some e =>
    rw [main_impl_raise env o e h hr]
    simp [submitted_append, submitted]

theorem destinations_cons (tx : CTransaction) (txs : List CTransaction) :
    destinations (tx :: txs) = tx.builder.outputs.map (·.addr) ++ destinations txs := by
  simp [destinations]

/-- The addresses paid by the submitted transactions are a sub-list of the addresses looped
over: at most one submission for each position of the loop. -/
theorem addressLoop_destinations (env : Env) :
    ∀ (addrs : List SaplingPaymentAddress) (k : Nat) (o : Operation) (t : Totals),
      (destinations (submitted (addressLoop env addrs k o t).calls)).Sublist addrs := by
  intro addrs
  induction addrs with
  | nil => intro k o t; simp [addressLoop, submitted, destinations]
  | cons addr rest ih =>
    intro k o t
    cases hkey : env.GetSaplingExtendedSpendingKey addr with
    | none =>
      rw [addressLoop_no_key env addr rest k o t hkey, after_calls, submitted_append,
        submitted_append, cancelCalls_submitted, List.nil_append,
        submitted_cons_of_not (.GetSaplingExtendedSpendingKey addr) _ rfl]
      exact List.Sublist.cons addr (ih _ _ _)
    | some extsk =>
      have hg := groupCalls_submitted env o.targetHeight_ k addr extsk
      cases hbuild : env.Build k (assemble env o.targetHeight_ k addr extsk).builder with
      | error x =>
        rw [addressLoop_raise env addr rest k o t extsk x hkey hbuild]
        simp [hg, destinations]
      | ok hash =>
        cases hc : (cancelArrives env k o).isCancelled with
        | true =>
          rw [addressLoop_break env addr rest k o t extsk hash hkey hbuild hc]
          simp [submitted_append, hg, submitted, destinations]
        | false =>
          rw [addressLoop_submit env addr rest k o t extsk hash hkey hbuild hc, after_calls,
            submitted_append, submitted_append, hg, List.nil_append]
          have hb := assemble_builder env o.targetHeight_ k addr extsk
          simp only at hb
          have hd : destinations (submitted [Event.checkpoint false,
              Event.AddPendingSaplingConsolidationTx
                ⟨(assemble env o.targetHeight_ k addr extsk).builder, hash⟩] ++
              submitted (addressLoop env rest (k + 1) (cancelArrives env k o)
                { numTxCreated := t.numTxCreated
                  consolidationTxIds := t.consolidationTxIds ++ [hash]
                  amountConsolidated := t.amountConsolidated +
                    (assemble env o.targetHeight_ k addr extsk).sel.amountToSend +
                    ((assemble env o.targetHeight_ k addr extsk).sel.amountToSend -
                      FEE) }).calls) =
              addr :: destinations (submitted (addressLoop env rest (k + 1)
                (cancelArrives env k o)
                { numTxCreated := t.numTxCreated
                  consolidationTxIds := t.consolidationTxIds ++ [hash]
                  amountConsolidated := t.amountConsolidated +
                    (assemble env o.targetHeight_ k addr extsk).sel.amountToSend +
                    ((assemble env o.targetHeight_ k addr extsk).sel.amountToSend -
                      FEE) }).calls) := by
            simp only [submitted, List.cons_append, List.nil_append, destinations_cons]
            rw [hb]
            rfl
          rw [hd]
          exact List.Sublist.cons₂ addr (ih _ _ _)

/-- What `main_impl` records when it returns `true`: the totals of the address loop, or the
empty result of a skipped round. -/
theorem main_impl_result (env : Env) (o : Operation) (hret : (main_impl env o).ret = .ok true) :
    ∃ res, (main_impl env o).op.result = some res ∧
      res.num_tx_created = 0 ∧
      res.consolidation_txids = (submitted (main_impl env o).calls).map (·.hash) ∧
      (destinations (submitted (main_impl env o).calls)).Sublist env.addresses := by
  by_cases h : skipsRound env o.targetHeight_
  · rw [main_impl_skip env o h]
    exact ⟨consolidationResult 0 0 [], rfl, rfl, by simp [submitted, consolidationResult],
      by simp [submitted, destinations]⟩
  · have hsub := main_impl_submitted env o h
    have htot := addressLoop_totals env env.addresses 0 o ⟨0, [], 0⟩
    have hdest := addressLoop_destinations env env.addresses 0 o ⟨0, [], 0⟩
    cases hr : (addressLoop env env.addresses 0 o ⟨0, [], 0⟩).raised with
    | some e =>
      rw [main_impl_raise env o e h hr] at hret
      simp at hret
    | none =>
      rw [hsub]
      rw [main_impl_return env o h hr]
      refine ⟨_, rfl, ?_, ?_, hdest⟩
      · simpa [consolidationResult] using htot.1
      · simpa [consolidationResult] using htot.2

/-- C11: when the cancellation flag is seen set at the checkpoint after a group's
transaction has been built, the calls of `main_impl` end with that `Build`, the checkpoint
and `set_result`: the transaction is not handed to the sink, no later address is processed
(no further key lookup, witness fetch, build or submission), `main_impl` returns `true`,
and the recorded `consolidation_txids` are the hashes of the transactions submitted before,
in order. -/
theorem C11_cancel_at_checkpoint_stops_run (env : Env) (o : Operation)
    (hc : Event.checkpoint true ∈ (main_impl env o).calls) :
    ∃ pre b res,
      (main_impl env o).calls = pre ++ [.Build b, .checkpoint true, .set_result res] ∧
      Event.checkpoint true ∉ pre ∧
      (main_impl env o).ret = .ok true ∧
      (main_impl env o).op.result = some res ∧
      submitted (main_impl env o).calls = submitted pre ∧
      res.consolidation_txids = (submitted pre).map (·.hash) := by
  have hret := main_impl_checkpoint_true env o hc
  by_cases h : skipsRound env o.targetHeight_
  · rw [main_impl_skip env o h] at hc
    simp at hc
  · cases hr : (addressLoop env env.addresses 0 o ⟨0, [], 0⟩).raised with
    | some e =>
      rw [main_impl_raise env o e h hr] at hret
      simp at hret
    | none =>
      have htot := (addressLoop_totals env env.addresses 0 o ⟨0, [], 0⟩).2
      rw [main_impl_return env o h hr] at hc ⊢
      simp only [List.mem_append, List.mem_cons, List.mem_singleton, List.not_mem_nil,
        or_false, reduceCtorEq, false_or] at hc
      obtain ⟨pre, b, hpre, hnot⟩ :=
        addressLoop_checkpoint_last env env.addresses 0 o ⟨0, [], 0⟩ hc
      have hsubm : submitted (addressLoop env env.addresses 0 o ⟨0, [], 0⟩).calls =
          submitted pre := by
        rw [hpre, submitted_append]; simp [submitted]
      refine ⟨[.NextActivationHeight o.targetHeight_, .GetFilteredNotes,
        .GetSaplingPaymentAddresses] ++ pre, b, _, ?_, ?_, rfl, rfl, ?_, ?_⟩
      · simp only [hpre, List.append_assoc, List.cons_append, List.nil_append]
      · intro hm
        simp only [List.mem_append, List.mem_cons, List.mem_singleton, List.not_mem_nil,
          or_false, reduceCtorEq, false_or] at hm
        exact hnot hm
      · simp only [submitted_append, hsubm]
        simp [submitted]
      · rw [submitted_append]
        simp only [submitted, List.nil_append]
        rw [← hsubm]
        simpa [consolidationResult] using htot

/-- C11 at the two-group example with `cancel()` arriving while the second address is
processed: the first transaction was submitted and its id is kept, the second is built but
not submitted. -/
theorem C11_cancel_at_checkpoint_stops_run_witness :
    Event.checkpoint true ∈
        (main_impl (twoGroupEnv twoBuilds (fun k => decide (k = 1)))
          (Operation.new 1000)).calls ∧
      (submitted (main_impl (twoGroupEnv twoBuilds (fun k => decide (k = 1)))
        (Operation.new 1000)).calls).map (·.hash) = ["txA"] ∧
      (main_impl (twoGroupEnv twoBuilds (fun k => decide (k = 1)))
        (Operation.new 1000)).op.result.map (·.consolidation_txids) = some ["txA"] ∧
      (main_impl (twoGroupEnv twoBuilds (fun k => decide (k = 1)))
        (Operation.new 1000)).ret = .ok true :=
  ⟨by decide, by decide, by decide,
    (C11_cancel_at_checkpoint_stops_run (twoGroupEnv twoBuilds (fun k => decide (k = 1)))
      (Operation.new 1000) (by decide)).elim
      (fun _ h => h.elim (fun _ h => h.elim (fun _ h => h.2.2.1)))⟩

theorem destinations_length (txs : List CTransaction)
    (h : ∀ tx ∈ txs, tx.builder.outputs.length = 1) :
    (destinations txs).length = txs.length := by
  induction txs with
  | nil => rfl
  | cons tx txs ih =>
    rw [destinations_cons, List.length_append, List.length_map,
      h tx (List.mem_cons_self _ _), ih (fun x hx => h x (List.mem_cons_of_mem _ hx)),
      List.length_cons, Nat.add_comm]

/-- Every transaction submitted by `main_impl` has exactly one output. -/
theorem main_impl_submitted_outputs (env : Env) (o : Operation) :
    ∀ tx ∈ submitted (main_impl env o).calls, tx.builder.outputs.length = 1 := by
  intro tx htx
  rw [mem_submitted] at htx
  obtain ⟨_, k, addr, extsk, hb⟩ := main_impl_loop_call env o _ htx (Or.inr rfl)
  have ha := assemble_builder env o.targetHeight_ k addr extsk
  simp only at ha
  rw [hb, ha]
  rfl

/-- C13: in every run of `main_impl` that returns normally without taking the
activation-boundary skip, the recorded `num_tx_created` is 0, while `consolidation_txids`
has one id for each transaction submitted, however many there are. -/
theorem C13_num_tx_created_stays_zero (env : Env) (o : Operation)
    (hns : ¬ skipsRound env o.targetHeight_) (hret : (main_impl env o).ret = .ok true) :
    ∃ res, (main_impl env o).op.result = some res ∧ res.num_tx_created = 0 ∧
      res.consolidation_txids.length = (submitted (main_impl env o).calls).length ∧
      Event.set_result res ∈ (main_impl env o).calls := by
  obtain ⟨res, h1, h2, h3, _⟩ := main_impl_result env o hret
  refine ⟨res, h1, h2, by rw [h3, List.length_map], ?_⟩
  cases hr : (addressLoop env env.addresses 0 o ⟨0, [], 0⟩).raised with
  | some e =>
    rw [main_impl_raise env o e hns hr] at hret
    simp at hret
  | none =>
    rw [main_impl_return env o hns hr] at h1 ⊢
    simp only [Operation.setConsolidationResult, Operation.set_result, Option.some.injEq] at h1
    rw [← h1]
    simp

/-- C13 at the two-group example: two transactions are submitted and two ids recorded, and
`num_tx_created` is 0. -/
theorem C13_num_tx_created_stays_zero_witness :
    ¬ skipsRound (twoGroupEnv twoBuilds (fun _ => false)) (Operation.new 1000).targetHeight_ ∧
      (main_impl (twoGroupEnv twoBuilds (fun _ => false)) (Operation.new 1000)).ret =
        .ok true ∧
      (main_impl (twoGroupEnv twoBuilds (fun _ => false)) (Operation.new 1000)).op.result =
        some { num_tx_created := 0, amount_consolidated := 220000,
               consolidation_txids := ["txA", "txB"] } ∧
      ∃ res, (main_impl (twoGroupEnv twoBuilds (fun _ => false))
          (Operation.new 1000)).op.result = some res ∧ res.num_tx_created = 0 :=
  ⟨by unfold skipsRound; decide, rfl, by decide,
    (C13_num_tx_created_stays_zero (twoGroupEnv twoBuilds (fun _ => false))
      (Operation.new 1000) (by unfold skipsRound; decide) rfl).elim
      (fun res h => ⟨res, h.1, h.2.1⟩)⟩

/-- C15: when `main_impl` raises in a run not cancelled at entry, no result is recorded:
the result field is as before the run and `set_result` is never called, in `main_impl` or
in `main`; the calls of `main_impl` end with the `Build` that raised, and the transactions
submitted before it stay submitted (nothing after the raise touches the sink). -/
theorem C15_no_result_after_raise (env : Env) (o : Operation) (e : Raised)
    (hnc : o.state ≠ .CANCELLED)
    (hret : (main_impl env (o.set_state .EXECUTING)).ret = .error e) :
    (main env o).op.result = o.result ∧
      (∀ res, Event.set_result res ∉ (main env o).calls) ∧
      submitted (main env o).calls =
        submitted (main_impl env (o.set_state .EXECUTING)).calls ∧
      ∃ pre b, (main_impl env (o.set_state .EXECUTING)).calls = pre ++ [.Build b] ∧
        submitted (main_impl env (o.set_state .EXECUTING)).calls = submitted pre := by
  have hns : ¬ skipsRound env (o.set_state .EXECUTING).targetHeight_ := by
    intro h
    rw [main_impl_skip env _ h] at hret
    simp at hret
  cases hr : (addressLoop env env.addresses 0 (o.set_state .EXECUTING) ⟨0, [], 0⟩).raised with
  | none =>
    rw [main_impl_return env _ hns hr] at hret
    simp at hret
  | some x =>
    have himpl := main_impl_raise env (o.set_state .EXECUTING) x hns hr
    have hres : (main_impl env (o.set_state .EXECUTING)).op.result = o.result := by
      rw [himpl]
      exact addressLoop_result env env.addresses 0 (o.set_state .EXECUTING) ⟨0, [], 0⟩
    have hnoset : ∀ res, Event.set_result res ∉
        (main_impl env (o.set_state .EXECUTING)).calls := by
      intro res hm
      rw [himpl] at hm
      simp only [List.mem_append, List.mem_cons, List.mem_singleton, List.not_mem_nil,
        or_false, reduceCtorEq, false_or] at hm
      exact addressLoop_no_set_result env _ _ _ _ res hm
    obtain ⟨pre, b, hpre⟩ :=
      addressLoop_raised_last env env.addresses 0 (o.set_state .EXECUTING) ⟨0, [], 0⟩ x hr
    have hlast : ∃ pre b, (main_impl env (o.set_state .EXECUTING)).calls = pre ++ [.Build b] ∧
        submitted (main_impl env (o.set_state .EXECUTING)).calls = submitted pre := by
      refine ⟨[.NextActivationHeight (o.set_state .EXECUTING).targetHeight_, .GetFilteredNotes,
        .GetSaplingPaymentAddresses] ++ pre, b, ?_, ?_⟩
      · rw [himpl]; simp only [hpre, List.append_assoc]
      · rw [himpl]; simp only [hpre, submitted_append]
        simp [submitted]
    cases hh : handle e with
    | error e' =>
      rw [main_of_escaped env o e e' hnc hret hh]
      refine ⟨hres, ?_, ?_, hlast⟩
      · intro res hm
        simp only [List.mem_append, List.mem_cons, List.mem_singleton, List.not_mem_nil,
          or_false, reduceCtorEq, false_or] at hm
        exact hnoset res hm
      · simp [submitted_append, submitted]
    | ok cm =>
      rw [main_of_handled env o e cm.1 cm.2 hnc hret hh]
      refine ⟨hres, ?_, ?_, hlast⟩
      · intro res hm
        simp only [List.mem_append, List.mem_cons, List.mem_singleton, List.not_mem_nil,
          or_false, reduceCtorEq, false_or, or_self] at hm
        exact hnoset res hm
      · simp [submitted_append, submitted]

/-- C15 at the two-group example when the second build raises: the first transaction was
submitted, no result is recorded and the run is `FAILED`. -/
theorem C15_no_result_after_raise_witness :
    (Operation.new 1000).state ≠ .CANCELLED ∧
      (main_impl (twoGroupEnv (secondBuildFails (.runtime_error "boom")) (fun _ => false))
        ((Operation.new 1000).set_state .EXECUTING)).ret = .error (.runtime_error "boom") ∧
      (submitted (main (twoGroupEnv (secondBuildFails (.runtime_error "boom"))
        (fun _ => false)) (Operation.new 1000)).calls).map (·.hash) = ["txA"] ∧
      (main (twoGroupEnv (secondBuildFails (.runtime_error "boom")) (fun _ => false))
        (Operation.new 1000)).op.state = .FAILED ∧
      (main (twoGroupEnv (secondBuildFails (.runtime_error "boom")) (fun _ => false))
        (Operation.new 1000)).op.result = none :=
  ⟨by decide, rfl, by decide, by decide,
    (C15_no_result_after_raise
      (twoGroupEnv (secondBuildFails (.runtime_error "boom")) (fun _ => false))
      (Operation.new 1000) (.runtime_error "boom") (by decide) rfl).1⟩

/-- C17: in every run of `main_impl` that returns normally, the recorded
`consolidation_txids` are exactly the hashes of the transactions handed to the sink, in
submission order; every submitted transaction pays one address, and the addresses paid are
a sub-list of the wallet's addresses, so at most one transaction is submitted for each
address of the (duplicate-free) address set. -/
theorem C17_txids_are_the_submitted_hashes (env : Env) (o : Operation)
    (hret : (main_impl env o).ret = .ok true) :
    ∃ res, (main_impl env o).op.result = some res ∧
      res.consolidation_txids = (submitted (main_impl env o).calls).map (·.hash) ∧
      (destinations (submitted (main_impl env o).calls)).length =
        (submitted (main_impl env o).calls).length ∧
      (destinations (submitted (main_impl env o).calls)).Sublist env.addresses ∧
      (env.addresses.Nodup → (destinations (submitted (main_impl env o).calls)).Nodup) := by
  obtain ⟨res, h1, _, h3, h4⟩ := main_impl_result env o hret
  exact ⟨res, h1, h3, destinations_length _ (main_impl_submitted_outputs env o), h4,
    fun hnd => List.Nodup.sublist h4 hnd⟩

/-- C17 at the two-group example: two transactions are submitted, to addresses 1 and 2, and
their hashes are the recorded ids. -/
theorem C17_txids_are_the_submitted_hashes_witness :
    (main_impl (twoGroupEnv twoBuilds (fun _ => false)) (Operation.new 1000)).ret =
        .ok true ∧
      (submitted (main_impl (twoGroupEnv twoBuilds (fun _ => false))
        (Operation.new 1000)).calls).map (·.hash) = ["txA", "txB"] ∧
      destinations (submitted (main_impl (twoGroupEnv twoBuilds (fun _ => false))
        (Operation.new 1000)).calls) = [1, 2] ∧
      ∃ res, (main_impl (twoGroupEnv twoBuilds (fun _ => false))
          (Operation.new 1000)).op.result = some res ∧
        res.consolidation_txids =
          (submitted (main_impl (twoGroupEnv twoBuilds (fun _ => false))
            (Operation.new 1000)).calls).map (·.hash) :=
  ⟨rfl, by decide, by decide,
    (C17_txids_are_the_submitted_hashes (twoGroupEnv twoBuilds (fun _ => false))
      (Operation.new 1000) rfl).elim (fun res h => ⟨res, h.1, h.2.1⟩)⟩

/-! ## The amount of a group (lines 102-110) -/

theorem selectStep_amount (env : Env) (extsk : SaplingExtendedSpendingKey) (sel : Selection)
    (e : SaplingNoteEntry) (h : sel.amountToSend = lastNoteAmount sel.fromNotes) :
    (selectStep env extsk sel e).amountToSend =
      lastNoteAmount (selectStep env extsk sel e).fromNotes := by
  unfold selectStep
  split
  · simp [lastNoteAmount]
  · exact h

/-- After the selection loop, `amountToSend` is the value of the last note selected. -/
theorem selectNotes_amount (env : Env) (extsk : SaplingExtendedSpendingKey) :
    ∀ (entries : List SaplingNoteEntry) (sel : Selection),
      sel.amountToSend = lastNoteAmount sel.fromNotes →
        (selectNotes env extsk entries sel).1.amountToSend =
          lastNoteAmount (selectNotes env extsk entries sel).1.fromNotes := by
  intro entries
  induction entries with
  | nil => intro sel h; exact h
  | cons e rest ih =>
    intro sel h
    have hstep := selectStep_amount env extsk sel e h
    by_cases hfull : (selectStep env extsk sel e).fromNotes.length ≥ 25
    · rw [selectNotes_cons_full env extsk e rest sel hfull]
      exact hstep
    · rw [selectNotes_cons_more env extsk e rest sel hfull]
      exact ih _ hstep

theorem assemble_amount (env : Env) (T : Int) (k : Nat) (addr : SaplingPaymentAddress)
    (extsk : SaplingExtendedSpendingKey) :
    (assemble env T k addr extsk).sel.amountToSend =
      lastNoteAmount (assemble env T k addr extsk).sel.fromNotes :=
  selectNotes_amount env extsk env.saplingEntries ⟨[], 0⟩ rfl

theorem toCAmount_of_lt (v : Nat) (h : v < 2 ^ 63) : toCAmount v = (v : Int) := by
  have h64 : v % 2 ^ 64 = v := Nat.mod_eq_of_lt (by omega)
  unfold toCAmount
  rw [h64, if_pos h]

/-- C19: for every non-empty address group, `amountToSend` is the value of the last note
selected into the group (as a `CAmount`; the value itself when it is below 2^63), and the
output value passed to the builder is that value minus 10000. -/
theorem C19_amount_is_last_note_value (env : Env) (T : Int) (k : Nat)
    (addr : SaplingPaymentAddress) (extsk : SaplingExtendedSpendingKey)
    (last : SaplingNoteEntry)
    (hlast : (assemble env T k addr extsk).sel.fromNotes.getLast? = some last) :
    (assemble env T k addr extsk).sel.amountToSend = toCAmount last.note.value ∧
      (assemble env T k addr extsk).builder.outputs =
        [⟨extsk.expsk.ovk, addr, toCAmount last.note.value - 10000⟩] ∧
      (last.note.value < 2 ^ 63 →
        (assemble env T k addr extsk).builder.outputs =
          [⟨extsk.expsk.ovk, addr, (last.note.value : Int) - 10000⟩]) := by
  have hamt : (assemble env T k addr extsk).sel.amountToSend = toCAmount last.note.value := by
    rw [assemble_amount, lastNoteAmount, hlast]
  have hb := assemble_builder env T k addr extsk
  simp only at hb
  have hout : (assemble env T k addr extsk).builder.outputs =
      [⟨extsk.expsk.ovk, addr, toCAmount last.note.value - 10000⟩] := by
    rw [hb]
    simp only [hamt, FEE]
  exact ⟨hamt, hout, fun hv => by rw [hout, toCAmount_of_lt _ hv]⟩

/-- C19 at the two-note example: the group has notes of values 30000 and 50000, and the
amount is 50000, the value of the last one. -/
theorem C19_amount_is_last_note_value_witness :
    (assemble twoNoteEnv 1000 0 1 (keyOf 1)).sel.fromNotes.getLast? =
        some (entry 1 1 50000) ∧
      (assemble twoNoteEnv 1000 0 1 (keyOf 1)).sel.fromNotes.map (·.note.value) =
        [30000, 50000] ∧
      (assemble twoNoteEnv 1000 0 1 (keyOf 1)).sel.amountToSend = 50000 :=
  ⟨by decide, by decide,
    (C19_amount_is_last_note_value twoNoteEnv 1000 0 1 (keyOf 1) (entry 1 1 50000)
      (by decide)).1.trans (by decide)⟩

/-! ## Reaching an address, and an address without notes -/

theorem after_after (a b : List Event) (r : LoopOutcome) :
    (r.after a).after b = r.after (b ++ a) := by
  simp [LoopOutcome.after]

/-- The loop over `pre ++ post` goes on to `post` when the loop over `pre` ends without a
raise and without seeing a cancellation. -/
theorem addressLoop_append (env : Env) (post : List SaplingPaymentAddress) :
    ∀ (pre : List SaplingPaymentAddress) (k : Nat) (o : Operation) (t : Totals),
      (addressLoop env pre k o t).raised = none →
      Event.checkpoint true ∉ (addressLoop env pre k o t).calls →
      addressLoop env (pre ++ post) k o t =
        (addressLoop env post (k + pre.length) (addressLoop env pre k o t).op
          (addressLoop env pre k o t).totals).after (addressLoop env pre k o t).calls := by
  intro pre
  induction pre with
  | nil => intro k o t _ _; simp [addressLoop, LoopOutcome.after]
  | cons addr rest ih =>
    intro k o t hr hc
    have hidx : k + 1 + rest.length = k + (addr :: rest).length := by
      simp only [List.length_cons]; omega
    cases hkey : env.GetSaplingExtendedSpendingKey addr with
    | none =>
      rw [addressLoop_no_key env addr rest k o t hkey] at hr hc ⊢
      rw [List.cons_append, addressLoop_no_key env addr (rest ++ post) k o t hkey]
      have hc' : Event.checkpoint true ∉
          (addressLoop env rest (k + 1) (cancelArrives env k o) t).calls :=
        fun hm => hc (by rw [after_calls]; exact List.mem_append_right _ hm)
      rw [ih (k + 1) (cancelArrives env k o) t hr hc', after_after, hidx]
      rfl
    | some extsk =>
      cases hbuild : env.Build k (assemble env o.targetHeight_ k addr extsk).builder with
      | error x =>
        rw [addressLoop_raise env addr rest k o t extsk x hkey hbuild] at hr
        simp at hr
      | ok hash =>
        cases hcan : (cancelArrives env k o).isCancelled with
        | true =>
          rw [addressLoop_break env addr rest k o t extsk hash hkey hbuild hcan] at hc
          simp at hc
        | false =>
          rw [addressLoop_submit env addr rest k o t extsk hash hkey hbuild hcan] at hr hc ⊢
          rw [List.cons_append,
            addressLoop_submit env addr (rest ++ post) k o t extsk hash hkey hbuild hcan]
          have hc' : Event.checkpoint true ∉
              (addressLoop env rest (k + 1) (cancelArrives env k o)
                { numTxCreated := t.numTxCreated
                  consolidationTxIds := t.consolidationTxIds ++ [hash]
                  amountConsolidated := t.amountConsolidated +
                    (assemble env o.targetHeight_ k addr extsk).sel.amountToSend +
                    ((assemble env o.targetHeight_ k addr extsk).sel.amountToSend -
                      FEE) }).calls :=
            fun hm => hc (by rw [after_calls]; exact List.mem_append_right _ hm)
          rw [ih (k + 1) (cancelArrives env k o) _ hr hc', after_after, hidx]
          rfl

/-- The address loop keeps `targetHeight_`. -/
theorem addressLoop_targetHeight (env : Env) (addrs : List SaplingPaymentAddress) (k : Nat)
    (o : Operation) (t : Totals) :
    (addressLoop env addrs k o t).op.targetHeight_ = o.targetHeight_ := by
  rcases addressLoop_op env addrs k o t with h | h
  · rw [h]
  · rw [h]; rfl

/-- A group for which no eligible note matches is empty, with amount 0. -/
theorem assemble_no_match (env : Env) (T : Int) (k : Nat) (addr : SaplingPaymentAddress)
    (extsk : SaplingExtendedSpendingKey)
    (hnomatch : ∀ x ∈ env.saplingEntries, ivkMatches env extsk x = false) :
    (assemble env T k addr extsk).sel.fromNotes = [] ∧
      (assemble env T k addr extsk).sel.amountToSend = 0 := by
  have hf : (assemble env T k addr extsk).sel.fromNotes = [] := by
    have h := selectNotes_fromNotes env extsk env.saplingEntries ⟨[], 0⟩ (by simp)
    have hnil : env.saplingEntries.filter (ivkMatches env extsk) = [] := by
      rw [List.filter_eq_nil_iff]
      intro x hx
      rw [hnomatch x hx]
      simp
    rw [hnil] at h
    simpa [assemble] using h
  refine ⟨hf, ?_⟩
  rw [assemble_amount, hf]
  rfl

/-- C18: for an address whose spending key the wallet holds and that no eligible note
matches, the builder gets no spend and one output of value -10000; whenever the address
loop reaches the address it calls `Build` on that builder; and when the loop reaches it in
a run not cancelled at entry and that build raises, `main_impl` raises and the run ends
`FAILED` (the handler having set code and message). -/
theorem C18_build_requested_without_notes (env : Env) (o : Operation)
    (pre rest : List SaplingPaymentAddress) (addr : SaplingPaymentAddress)
    (extsk : SaplingExtendedSpendingKey) (e : Raised)
    (hkey : env.GetSaplingExtendedSpendingKey addr = some extsk)
    (hnomatch : ∀ x ∈ env.saplingEntries, ivkMatches env extsk x = false) :
    (∀ T k, (assemble env T k addr extsk).builder.spends = [] ∧
      (assemble env T k addr extsk).builder.outputs = [⟨extsk.expsk.ovk, addr, -10000⟩]) ∧
    (∀ k o' t, Event.Build (assemble env o'.targetHeight_ k addr extsk).builder ∈
      (addressLoop env (addr :: rest) k o' t).calls) ∧
    (o.state ≠ .CANCELLED → ¬ skipsRound env o.targetHeight_ →
      env.addresses = pre ++ addr :: rest →
      (addressLoop env pre 0 (o.set_state .EXECUTING) ⟨0, [], 0⟩).raised = none →
      Event.checkpoint true ∉
        (addressLoop env pre 0 (o.set_state .EXECUTING) ⟨0, [], 0⟩).calls →
      env.Build pre.length (assemble env o.targetHeight_ pre.length addr extsk).builder =
        .error e →
      (main_impl env (o.set_state .EXECUTING)).ret = .error e ∧
        ((main env o).escaped = none → (main env o).op.state = .FAILED)) := by
  refine ⟨?_, ?_, ?_⟩
  · intro T k
    obtain ⟨hf, ha⟩ := assemble_no_match env T k addr extsk hnomatch
    have hb := assemble_builder env T k addr extsk
    simp only at hb
    rw [hb]
    simp [hf, ha, witnessedSpends, FEE]
  · intro k o' t
    obtain ⟨tail, htail⟩ := addressLoop_calls_of_key env addr rest k o' t extsk hkey
    rw [htail, groupCalls_split]
    simp
  · intro hnc hns haddrs hr hcp hbuild
    have hT : (addressLoop env pre 0 (o.set_state .EXECUTING) ⟨0, [], 0⟩).op.targetHeight_ =
        o.targetHeight_ := addressLoop_targetHeight env pre 0 _ _
    have hloop : (addressLoop env env.addresses 0 (o.set_state .EXECUTING) ⟨0, [], 0⟩).raised =
        some e := by
      rw [haddrs, addressLoop_append env (addr :: rest) pre 0 _ _ hr hcp]
      have hbuild' : env.Build (0 + pre.length)
          (assemble env
            (addressLoop env pre 0 (o.set_state .EXECUTING) ⟨0, [], 0⟩).op.targetHeight_
            (0 + pre.length) addr extsk).builder = .error e := by
        rw [hT, Nat.zero_add]; exact hbuild
      rw [addressLoop_raise env addr rest (0 + pre.length) _ _ extsk e hkey hbuild']
      rfl
    have hret : (main_impl env (o.set_state .EXECUTING)).ret = .error e := by
      rw [main_impl_raise env (o.set_state .EXECUTING) e hns hloop]
    refine ⟨hret, fun hesc => ?_⟩
    cases hh : handle e with
    | error e' =>
      rw [main_of_escaped env o e e' hnc hret hh] at hesc
      simp at hesc
    | ok cm =>
      rw [main_of_handled env o e cm.1 cm.2 hnc hret hh]
      rfl

/-- C18 at the no-match example: the wallet holds the key of address 1 but its only note is
at address 2; a build is requested with no spend and output -10000, it raises, and the run
ends `FAILED`. -/
theorem C18_build_requested_without_notes_witness :
    (noMatchEnv (.objError (some (-4)) (some "Failed to build transaction"))
        ).GetSaplingExtendedSpendingKey 1 = some (keyOf 1) ∧
      (∀ x ∈ (noMatchEnv (.objError (some (-4))
          (some "Failed to build transaction"))).saplingEntries,
        ivkMatches (noMatchEnv (.objError (some (-4))
          (some "Failed to build transaction"))) (keyOf 1) x = false) ∧
      (assemble (noMatchEnv (.objError (some (-4)) (some "Failed to build transaction")))
        1000 0 1 (keyOf 1)).builder.outputs.map (·.value) = [-10000] ∧
      (main (noMatchEnv (.objError (some (-4)) (some "Failed to build transaction")))
        (Operation.new 1000)).op.state = .FAILED :=
  ⟨rfl, by decide, by decide,
    ((C18_build_requested_without_notes
      (noMatchEnv (.objError (some (-4)) (some "Failed to build transaction")))
      (Operation.new 1000) [] [] 1 (keyOf 1)
      (.objError (some (-4)) (some "Failed to build transaction")) rfl (by decide)).2.2
      (by decide) (by unfold skipsRound; decide) rfl rfl (by decide) rfl).2 rfl⟩

/-! ## Addresses without a spending key (lines 97-100, 164-165) -/

/-- The selection does not look at the wallet's address list. -/
theorem selectNotes_addresses_irrelevant (env : Env) (addrs : List SaplingPaymentAddress)
    (extsk : SaplingExtendedSpendingKey) :
    ∀ (entries : List SaplingNoteEntry) (sel : Selection),
      selectNotes { env with addresses := addrs } extsk entries sel =
        selectNotes env extsk entries sel := by
  intro entries
  induction entries with
  | nil => intro sel; rfl
  | cons e rest ih =>
    intro sel
    have hstep : selectStep { env with addresses := addrs } extsk sel e =
        selectStep env extsk sel e := rfl
    simp only [selectNotes, hstep, ih]

theorem assemble_addresses_irrelevant (env : Env) (addrs : List SaplingPaymentAddress)
    (T : Int) (k : Nat) (addr : SaplingPaymentAddress) (extsk : SaplingExtendedSpendingKey) :
    assemble { env with addresses := addrs } T k addr extsk = assemble env T k addr extsk := by
  simp only [assemble, selectNotes_addresses_irrelevant]

/-- The address loop reads the addresses it is given, not the environment's list. -/
theorem addressLoop_addresses_irrelevant (env : Env) (addrs : List SaplingPaymentAddress) :
    ∀ (l : List SaplingPaymentAddress) (k : Nat) (o : Operation) (t : Totals),
      addressLoop { env with addresses := addrs } l k o t = addressLoop env l k o t := by
  intro l
  induction l with
  | nil => intro k o t; rfl
  | cons addr rest ih =>
    intro k o t
    have hca : cancelArrives { env with addresses := addrs } k o = cancelArrives env k o := rfl
    have hcc : cancelCalls { env with addresses := addrs } k = cancelCalls env k := rfl
    simp only [addressLoop, hca, hcc, groupCalls, assemble_addresses_irrelevant, ih]

theorem assemble_position_irrelevant (env : Env)
    (hW : ∀ k k' ops, env.GetSaplingNoteWitnesses k ops = env.GetSaplingNoteWitnesses k' ops)
    (T : Int) (k k' : Nat) (addr : SaplingPaymentAddress)
    (extsk : SaplingExtendedSpendingKey) :
    assemble env T k addr extsk = assemble env T k' addr extsk := by
  have h : env.GetSaplingNoteWitnesses k = env.GetSaplingNoteWitnesses k' :=
    funext (hW k k')
  simp only [assemble, h]

theorem groupCalls_not_keyless (env : Env) (T : Int) (k : Nat) (addr : SaplingPaymentAddress)
    (extsk : SaplingExtendedSpendingKey)
    (hkey : env.GetSaplingExtendedSpendingKey addr = some extsk) :
    (groupCalls env k addr (assemble env T k addr extsk)).filter
        (fun e => !keylessLookup env e) =
      groupCalls env k addr (assemble env T k addr extsk) := by
  rw [List.filter_eq_self]
  intro e he
  simp only [groupCalls, List.mem_append, List.mem_singleton] at he
  rcases he with ((he | he) | he) | he
  · rw [cancelCalls_mem env k e he]; rfl
  · rw [he]; simp [keylessLookup, hasKey, hkey]
  · simp only [assemble, List.mem_append, List.mem_cons, List.mem_singleton,
      List.not_mem_nil, or_false] at he
    rcases he with he | he | he
    · obtain ⟨a, rfl⟩ := selectNotes_calls env extsk _ _ e he
      rfl
    · rw [he]; rfl
    · rw [he]; rfl
  · rw [he]; rfl

/-- When the collaborators answer the same at every position and no `cancel()` arrives, the
address loop over a list and over its addresses with a key end alike, and make the same
calls apart from the key lookups of the addresses without a key. -/
theorem addressLoop_keyed (env : Env)
    (hB : ∀ k k' b, env.Build k b = env.Build k' b)
    (hW : ∀ k k' ops, env.GetSaplingNoteWitnesses k ops = env.GetSaplingNoteWitnesses k' ops)
    (hC : ∀ k, env.cancelDuring k = false) :
    ∀ (addrs : List SaplingPaymentAddress) (k k' : Nat) (o : Operation) (t : Totals),
      (addressLoop env addrs k o t).op =
        (addressLoop env (addrs.filter (hasKey env)) k' o t).op ∧
      (addressLoop env addrs k o t).totals =
        (addressLoop env (addrs.filter (hasKey env)) k' o t).totals ∧
      (addressLoop env addrs k o t).raised =
        (addressLoop env (addrs.filter (hasKey env)) k' o t).raised ∧
      (addressLoop env addrs k o t).calls.filter (fun e => !keylessLookup env e) =
        (addressLoop env (addrs.filter (hasKey env)) k' o t).calls := by
  have hca : ∀ k o, cancelArrives env k o = o := by
    intro k o; simp [cancelArrives, hC k]
  have hcc : ∀ k, cancelCalls env k = [] := by
    intro k; simp [cancelCalls, hC k]
  intro addrs
  induction addrs with
  | nil => intro k k' o t; simp [addressLoop]
  | cons addr rest ih =>
    intro k k' o t
    cases hkey : env.GetSaplingExtendedSpendingKey addr with
    | none =>
      have hf : (addr :: rest).filter (hasKey env) = rest.filter (hasKey env) := by
        simp [hasKey, hkey]
      rw [hf, addressLoop_no_key env addr rest k o t hkey, hca, hcc]
      obtain ⟨h1, h2, h3, h4⟩ := ih (k + 1) k' o t
      refine ⟨h1, h2, h3, ?_⟩
      rw [after_calls, List.filter_append, h4]
      simp [keylessLookup, hasKey, hkey]
    | some extsk =>
      have hf : (addr :: rest).filter (hasKey env) = addr :: rest.filter (hasKey env) := by
        simp [hasKey, hkey]
      have ha := assemble_position_irrelevant env hW o.targetHeight_ k k' addr extsk
      have hgk : groupCalls env k addr (assemble env o.targetHeight_ k addr extsk) =
          groupCalls env k' addr (assemble env o.targetHeight_ k' addr extsk) := by
        rw [ha]; simp only [groupCalls, hcc]
      have hg := groupCalls_not_keyless env o.targetHeight_ k addr extsk hkey
      rw [hf]
      cases hbuild : env.Build k (assemble env o.targetHeight_ k addr extsk).builder with
      | error x =>
        have hbuild' : env.Build k' (assemble env o.targetHeight_ k' addr extsk).builder =
            .error x := by rw [← ha, hB k' k]; exact hbuild
        rw [addressLoop_raise env addr rest k o t extsk x hkey hbuild,
          addressLoop_raise env addr (rest.filter (hasKey env)) k' o t extsk x hkey hbuild',
          hca, hca, ← ha]
        exact ⟨rfl, rfl, rfl, by rw [hg, hgk, ha]⟩
      | ok hash =>
        have hbuild' : env.Build k' (assemble env o.targetHeight_ k' addr extsk).builder =
            .ok hash := by rw [← ha, hB k' k]; exact hbuild
        cases hc : o.isCancelled with
        | true =>
          have hc1 : (cancelArrives env k o).isCancelled = true := by rw [hca]; exact hc
          have hc2 : (cancelArrives env k' o).isCancelled = true := by rw [hca]; exact hc
          rw [addressLoop_break env addr rest k o t extsk hash hkey hbuild hc1,
            addressLoop_break env addr (rest.filter (hasKey env)) k' o t extsk hash hkey
              hbuild' hc2, hca, hca, ← ha]
          refine ⟨rfl, rfl, rfl, ?_⟩
          rw [List.filter_append, hg, hgk, ha]
          rfl
        | false =>
          have hc1 : (cancelArrives env k o).isCancelled = false := by rw [hca]; exact hc
          have hc2 : (cancelArrives env k' o).isCancelled = false := by rw [hca]; exact hc
          rw [addressLoop_submit env addr rest k o t extsk hash hkey hbuild hc1,
            addressLoop_submit env addr (rest.filter (hasKey env)) k' o t extsk hash hkey
              hbuild' hc2, hca, hca, ← ha]
          obtain ⟨h1, h2, h3, h4⟩ := ih (k + 1) (k' + 1) o
            { numTxCreated := t.numTxCreated
              consolidationTxIds := t.consolidationTxIds ++ [hash]
              amountConsolidated := t.amountConsolidated +
                (assemble env o.targetHeight_ k addr extsk).sel.amountToSend +
                ((assemble env o.targetHeight_ k addr extsk).sel.amountToSend - FEE) }
          refine ⟨h1, h2, h3, ?_⟩
          rw [after_calls, after_calls, List.filter_append, List.filter_append, hg, h4, hgk,
            ha]
          rfl

theorem skipsRound_keyedOnly (env : Env) (T : Int) :
    skipsRound (keyedOnly env) T ↔ skipsRound env T := Iff.rfl

/-- C16: for an address whose spending key the wallet does not hold, the address loop makes
the key lookup and nothing else (no witness fetch, no builder, no submission), leaves the
totals `amountConsolidated` and `consolidationTxIds` as they were and goes on to the next
address; and when the collaborators answer the same at every position and no `cancel()`
arrives, `main_impl` returns the same, leaves the same operation (the same result) and makes
the same calls, apart from those key lookups, as it does on the wallet's addresses that have
a spending key. -/
theorem C16_keyless_addresses_have_no_effect (env : Env) (o : Operation) :
    (∀ addr rest k o' t, env.GetSaplingExtendedSpendingKey addr = none →
      addressLoop env [addr] k o' t =
        { op := cancelArrives env k o', totals := t, raised := none,
          calls := cancelCalls env k ++ [.GetSaplingExtendedSpendingKey addr] } ∧
      addressLoop env (addr :: rest) k o' t =
        (addressLoop env rest (k + 1) (cancelArrives env k o') t).after
          (cancelCalls env k ++ [.GetSaplingExtendedSpendingKey addr]) ∧
      (∀ e ∈ cancelCalls env k ++ [Event.GetSaplingExtendedSpendingKey addr],
        e.isBuilderCall = false ∧ e.isSubmission = false ∧
          ∀ ops, e ≠ .GetSaplingNoteWitnesses ops)) ∧
    ((∀ k k' b, env.Build k b = env.Build k' b) →
      (∀ k k' ops, env.GetSaplingNoteWitnesses k ops = env.GetSaplingNoteWitnesses k' ops) →
      (∀ k, env.cancelDuring k = false) →
      (main_impl (keyedOnly env) o).ret = (main_impl env o).ret ∧
        (main_impl (keyedOnly env) o).op = (main_impl env o).op ∧
        (main_impl (keyedOnly env) o).calls =
          (main_impl env o).calls.filter (fun e => !keylessLookup env e)) := by
  refine ⟨?_, ?_⟩
  · intro addr rest k o' t hkey
    refine ⟨?_, addressLoop_no_key env addr rest k o' t hkey, ?_⟩
    · rw [addressLoop_no_key env addr [] k o' t hkey]
      simp [addressLoop, LoopOutcome.after]
    · intro e he
      simp only [List.mem_append, List.mem_singleton] at he
      rcases he with he | he
      · rw [cancelCalls_mem env k e he]
        exact ⟨rfl, rfl, fun _ => by simp⟩
      · rw [he]
        exact ⟨rfl, rfl, fun _ => by simp⟩
  · intro hB hW hC
    have hloop : addressLoop (keyedOnly env) (keyedOnly env).addresses 0 o ⟨0, [], 0⟩ =
        addressLoop env (env.addresses.filter (hasKey env)) 0 o ⟨0, [], 0⟩ :=
      addressLoop_addresses_irrelevant env _ _ 0 o ⟨0, [], 0⟩
    obtain ⟨h1, h2, h3, h4⟩ := addressLoop_keyed env hB hW hC env.addresses 0 0 o ⟨0, [], 0⟩
    by_cases hs : skipsRound env o.targetHeight_
    · rw [main_impl_skip env o hs,
        main_impl_skip (keyedOnly env) o ((skipsRound_keyedOnly env _).mpr hs)]
      exact ⟨rfl, rfl, rfl⟩
    · have hs' : ¬ skipsRound (keyedOnly env) o.targetHeight_ :=
        fun h => hs ((skipsRound_keyedOnly env _).mp h)
      cases hr : (addressLoop env env.addresses 0 o ⟨0, [], 0⟩).raised with
      | none =>
        have hr' : (addressLoop (keyedOnly env) (keyedOnly env).addresses 0 o
            ⟨0, [], 0⟩).raised = none := by rw [hloop, ← h3]; exact hr
        rw [main_impl_return env o hs hr, main_impl_return (keyedOnly env) o hs' hr', hloop,
          ← h1, ← h2, ← h4]
        refine ⟨rfl, rfl, ?_⟩
        simp only [List.filter_append]
        rfl
      | some x =>
        have hr' : (addressLoop (keyedOnly env) (keyedOnly env).addresses 0 o
            ⟨0, [], 0⟩).raised = some x := by rw [hloop, ← h3]; exact hr
        rw [main_impl_raise env o x hs hr, main_impl_raise (keyedOnly env) o x hs' hr', hloop,
          ← h1, ← h4]
        refine ⟨rfl, rfl, ?_⟩
        simp only [List.filter_append]
        rfl

/-- C16 at the watch-only example: address 12 has no spending key; the run over addresses 1
and 12 records the same result as the run over address 1 alone, and its only call for
address 12 is the key lookup. -/
theorem C16_keyless_addresses_have_no_effect_witness :
    watchOnlyEnv.GetSaplingExtendedSpendingKey 12 = none ∧
      (keyedOnly watchOnlyEnv).addresses = [1] ∧
      (main_impl watchOnlyEnv (Operation.new 1000)).op.result =
        some { num_tx_created := 0, amount_consolidated := 90000,
               consolidation_txids := ["tx"] } ∧
      (main_impl (keyedOnly watchOnlyEnv) (Operation.new 1000)).op =
        (main_impl watchOnlyEnv (Operation.new 1000)).op ∧
      (addressLoop watchOnlyEnv [12] 1 (Operation.new 1000) ⟨0, ["tx"], 90000⟩).totals =
        ⟨0, ["tx"], 90000⟩ :=
  ⟨rfl, by decide, by decide,
    ((C16_keyless_addresses_have_no_effect watchOnlyEnv (Operation.new 1000)).2
      (fun _ _ _ => rfl) (fun _ _ _ => rfl) (fun _ => rfl)).2.1,
    congrArg LoopOutcome.totals
      ((C16_keyless_addresses_have_no_effect watchOnlyEnv (Operation.new 1000)).1 12 [] 1
        (Operation.new 1000) ⟨0, ["tx"], 90000⟩ rfl).1⟩

/-! ## The amount selector (lines 185-198) -/

theorem toInt32_of_lt (v : Nat) (h : v < 2 ^ 31) : toInt32 v = (v : Int) := by
  have h32 : v % 2 ^ 32 = v := Nat.mod_eq_of_lt (by omega)
  unfold toInt32
  rw [h32, if_pos h]

/-- For draws that `GetRand(3)` and `GetRand(99)` can return, nothing overflows and the
amount of the round is `(r99 + 1) * 10 ^ (r3 + 6)`. -/
theorem drawAmount_eq (r3 r99 : Nat) (h3 : r3 < 3) (h99 : r99 < 99) :
    drawAmount r3 r99 = ((r99 + 1 : Nat) : Int) * 10 ^ (r3 + 6) ∧
      (10 : Nat) ^ (r3 + 6) < 2 ^ 31 ∧ (r99 + 1) * 10 ^ (r3 + 6) < 2 ^ 63 := by
  have hm : (r99 + 1) % 2 ^ 64 = r99 + 1 := Nat.mod_eq_of_lt (by omega)
  have he : toInt32 ((r3 + 6) % 2 ^ 64) = ((r3 + 6 : Nat) : Int) := by
    rw [Nat.mod_eq_of_lt (by omega)]
    exact toInt32_of_lt _ (by omega)
  have hpow : (10 : Nat) ^ (r3 + 6) < 2 ^ 31 := by
    interval_cases r3 <;> norm_num
  have hprod : (r99 + 1) * 10 ^ (r3 + 6) < 2 ^ 63 := by
    interval_cases r3 <;> omega
  refine ⟨?_, hpow, hprod⟩
  unfold drawAmount
  simp only [he, Int.toNat_ofNat, hm]
  rw [toInt32_of_lt _ hpow]
  have hu : toUInt64 (((10 ^ (r3 + 6) : Nat) : Int)) = 10 ^ (r3 + 6) := by
    unfold toUInt64
    rw [Int.emod_eq_of_lt (by positivity) (by
      have : ((10 ^ (r3 + 6) : Nat) : Int) < 2 ^ 31 := by exact_mod_cast hpow
      omega)]
    exact Int.toNat_ofNat _
  rw [hu, Nat.mod_eq_of_lt (by omega), toCAmount_of_lt _ hprod]
  push_cast
  ring

/-- What `chooseAmount` returns is the amount of one of the rounds, and is within the funds. -/
theorem chooseAmount_some (availableFunds : Int) :
    ∀ (draws : List (Nat × Nat)) (a : Int), chooseAmount availableFunds draws = some a →
      a ≤ availableFunds ∧ ∃ d ∈ draws, a = drawAmount d.1 d.2 := by
  intro draws
  induction draws with
  | nil => intro a h; simp [chooseAmount] at h
  | cons d rest ih =>
    intro a h
    obtain ⟨r3, r99⟩ := d
    by_cases hgt : drawAmount r3 r99 > availableFunds
    · simp only [chooseAmount, hgt, if_true] at h
      obtain ⟨h1, d, hd, h2⟩ := ih a h
      exact ⟨h1, d, List.mem_cons_of_mem _ hd, h2⟩
    · simp only [chooseAmount, hgt, if_false, Option.some.injEq] at h
      exact ⟨by omega, (r3, r99), List.mem_cons_self _ _, h.symm⟩

/-- The loop ends at the latest at the first round whose amount is within the funds. -/
theorem chooseAmount_terminates (availableFunds : Int) (r3 r99 : Nat)
    (h : drawAmount r3 r99 ≤ availableFunds) :
    ∀ (pre post : List (Nat × Nat)),
      (chooseAmount availableFunds (pre ++ (r3, r99) :: post)).isSome = true := by
  intro pre
  induction pre with
  | nil =>
    intro post
    have : ¬ drawAmount r3 r99 > availableFunds := by omega
    simp [chooseAmount, this]
  | cons d rest ih =>
    intro post
    obtain ⟨x, y⟩ := d
    by_cases hgt : drawAmount x y > availableFunds
    · simp only [List.cons_append, chooseAmount, hgt, if_true]
      exact ih post
    · simp [chooseAmount, hgt]

/-- C12: for `availableFunds >= 10^6` and draws that `GetRand(3)` and `GetRand(99)` can
return, an amount `a` returned by `chooseAmount` satisfies `10^6 <= a <= availableFunds` and
`a = mantissa * 10^exponent` with `exponent` 6, 7 or 8 and `mantissa` from 1 to 99, the
exponent and mantissa being those of one of the rounds; the power fits in an `int` and the
product in 63 bits; and the loop does end on every sequence of draws that contains the
round of exponent 6 and mantissa 1. -/
theorem C12_chooseAmount_in_range (availableFunds : Int) (draws : List (Nat × Nat)) (a : Int)
    (hfunds : 10 ^ 6 ≤ availableFunds)
    (hdraws : ∀ d ∈ draws, d.1 < 3 ∧ d.2 < 99)
    (hret : chooseAmount availableFunds draws = some a) :
    10 ^ 6 ≤ a ∧ a ≤ availableFunds ∧
      (∃ exponent mantissa : Nat,
        (exponent = 6 ∨ exponent = 7 ∨ exponent = 8) ∧ 1 ≤ mantissa ∧ mantissa ≤ 99 ∧
        a = (mantissa : Int) * 10 ^ exponent ∧
        (exponent - 6, mantissa - 1) ∈ draws ∧
        (10 : Nat) ^ exponent < 2 ^ 31 ∧ mantissa * 10 ^ exponent < 2 ^ 63) ∧
      (∀ pre post, (chooseAmount availableFunds (pre ++ (0, 0) :: post)).isSome = true) := by
  obtain ⟨hle, d, hd, hda⟩ := chooseAmount_some availableFunds draws a hret
  obtain ⟨h3, h99⟩ := hdraws d hd
  obtain ⟨heq, hpow, hprod⟩ := drawAmount_eq d.1 d.2 h3 h99
  have hex : ∃ exponent mantissa : Nat,
      (exponent = 6 ∨ exponent = 7 ∨ exponent = 8) ∧ 1 ≤ mantissa ∧ mantissa ≤ 99 ∧
      a = (mantissa : Int) * 10 ^ exponent ∧
      (exponent - 6, mantissa - 1) ∈ draws ∧
      (10 : Nat) ^ exponent < 2 ^ 31 ∧ mantissa * 10 ^ exponent < 2 ^ 63 := by
    refine ⟨d.1 + 6, d.2 + 1, by omega, by omega, by omega, by rw [hda, heq], ?_, hpow, hprod⟩
    simpa using hd
  refine ⟨?_, hle, hex, ?_⟩
  · rw [hda, heq]
    have h1 : (1 : Int) ≤ ((d.2 + 1 : Nat) : Int) := by exact_mod_cast Nat.succ_le_succ (Nat.zero_le _)
    have h2 : (10 : Int) ^ 6 ≤ 10 ^ (d.1 + 6) :=
      pow_le_pow_right₀ (by norm_num) (by omega)
    calc (10 : Int) ^ 6 = 1 * 10 ^ 6 := by ring
      _ ≤ ((d.2 + 1 : Nat) : Int) * 10 ^ (d.1 + 6) :=
        mul_le_mul h1 h2 (by positivity) (by positivity)
  · have h0 : drawAmount 0 0 ≤ availableFunds := by
      have : drawAmount 0 0 = 10 ^ 6 := by decide
      rw [this]; exact hfunds
    exact chooseAmount_terminates availableFunds 0 0 h0

/-- C12 with funds 25000000 and the rounds (exponent 8, mantissa 99), (exponent 7,
mantissa 3), (exponent 6, mantissa 2): the amounts of the first two rounds, 9900000000 and
30000000, exceed the funds, and the third, 2000000, is returned. -/
theorem C12_chooseAmount_in_range_witness :
    (10 : Int) ^ 6 ≤ 25000000 ∧
      (∀ d ∈ [(2, 98), (1, 2), (0, 1)], d.1 < 3 ∧ d.2 < 99) ∧
      chooseAmount 25000000 [(2, 98), (1, 2), (0, 1)] = some 2000000 ∧
      (2000000 : Int) ≤ 25000000 :=
  ⟨by decide, by decide, by decide,
    (C12_chooseAmount_in_range 25000000 [(2, 98), (1, 2), (0, 1)] 2000000 (by decide)
      (by decide) (by decide)).2.1⟩

/-! ## The destination address (lines 200-235) -/

/-- With no override, a wallet that holds the keys of the account 0 address is left alone. -/
theorem getConsolidationDestAddress_held {W : Type} (env : DestEnv W) (seed : HDSeed) (w : W)
    (hno : env.consolidationdestaddress = none)
    (hheld : holdsSpendingKey env w (account0Address env seed) = true) :
    getConsolidationDestAddress env seed w =
      { address := some (account0Address env seed), wallet := w, generated := 0 } := by
  simp [getConsolidationDestAddress, hno, hheld]

/-- With no override, a wallet that does not hold the keys generates one key, which must be
the account 0 address. -/
theorem getConsolidationDestAddress_generate {W : Type} (env : DestEnv W) (seed : HDSeed)
    (w : W) (hno : env.consolidationdestaddress = none)
    (hheld : holdsSpendingKey env w (account0Address env seed) = false)
    (hgen : (env.GenerateNewSaplingZKey w).1 = account0Address env seed) :
    getConsolidationDestAddress env seed w =
      { address := some (account0Address env seed), wallet := (env.GenerateNewSaplingZKey w).2,
        generated := 1 } := by
  simp [getConsolidationDestAddress, hno, hheld, hgen]

/-- C14: with no override address configured and a wallet whose `GenerateNewSaplingZKey`,
when the keys of the account 0 address are not yet held, returns that address and leaves
the wallet holding its incoming viewing key, full viewing key and spending key: two
successive calls of `getConsolidationDestAddress` with the same seed both return the
account 0 address, and the second call does not call `GenerateNewSaplingZKey` and leaves
the key store as the first call left it. -/
theorem C14_dest_address_idempotent {W : Type} (env : DestEnv W) (seed : HDSeed) (w : W)
    (hno : env.consolidationdestaddress = none)
    (hgen : holdsSpendingKey env w (account0Address env seed) = false →
      (env.GenerateNewSaplingZKey w).1 = account0Address env seed ∧
      holdsSpendingKey env (env.GenerateNewSaplingZKey w).2 (account0Address env seed) =
        true) :
    (getConsolidationDestAddress env seed w).address = some (account0Address env seed) ∧
      (getConsolidationDestAddress env seed
        (getConsolidationDestAddress env seed w).wallet).address =
        some (account0Address env seed) ∧
      (getConsolidationDestAddress env seed
        (getConsolidationDestAddress env seed w).wallet).generated = 0 ∧
      (getConsolidationDestAddress env seed
        (getConsolidationDestAddress env seed w).wallet).wallet =
        (getConsolidationDestAddress env seed w).wallet ∧
      (getConsolidationDestAddress env seed w).generated ≤ 1 := by
  cases hheld : holdsSpendingKey env w (account0Address env seed) with
  | true =>
    have h1 := getConsolidationDestAddress_held env seed w hno hheld
    have hw : (getConsolidationDestAddress env seed w).wallet = w := by rw [h1]
    rw [hw]
    refine ⟨?_, ?_, ?_, ?_, ?_⟩ <;> rw [h1]
    exact Nat.zero_le 1
  | false =>
    obtain ⟨hg1, hg2⟩ := hgen hheld
    have h1 := getConsolidationDestAddress_generate env seed w hno hheld hg1
    have h2 := getConsolidationDestAddress_held env seed (env.GenerateNewSaplingZKey w).2 hno hg2
    have hw : (getConsolidationDestAddress env seed w).wallet =
        (env.GenerateNewSaplingZKey w).2 := by rw [h1]
    rw [hw]
    refine ⟨by rw [h1], by rw [h2], by rw [h2], by rw [h2], by rw [h1]⟩

/-- C14 at the sample wallet, empty at first: the first call generates the key of the
account 0 address of seed 5, the second returns the same address without generating. -/
theorem C14_dest_address_idempotent_witness :
    sampleDestEnv.consolidationdestaddress = none ∧
      (sampleDestEnv.GenerateNewSaplingZKey []).1 = account0Address sampleDestEnv 5 ∧
      holdsSpendingKey sampleDestEnv (sampleDestEnv.GenerateNewSaplingZKey []).2
        (account0Address sampleDestEnv 5) = true ∧
      (getConsolidationDestAddress sampleDestEnv 5 []).generated = 1 ∧
      (getConsolidationDestAddress sampleDestEnv 5
        (getConsolidationDestAddress sampleDestEnv 5 []).wallet).generated = 0 ∧
      (getConsolidationDestAddress sampleDestEnv 5
        (getConsolidationDestAddress sampleDestEnv 5 []).wallet).address =
        (getConsolidationDestAddress sampleDestEnv 5 []).address :=
  ⟨rfl, by decide, by decide, by decide,
    (C14_dest_address_idempotent sampleDestEnv 5 [] rfl
      (fun _ => ⟨by decide, by decide⟩)).2.2.1,
    ((C14_dest_address_idempotent sampleDestEnv 5 [] rfl
      (fun _ => ⟨by decide, by decide⟩)).2.1).trans
      ((C14_dest_address_idempotent sampleDestEnv 5 [] rfl
        (fun _ => ⟨by decide, by decide⟩)).1).symm⟩

end SaplingConsolidation
